import Mathlib

/-!
# Verification of the infrahub-bundle-dc topology generators

A shallow embedding of the list-processing and data-normalisation logic of
the repository's Python code, together with theorems checking the
natural-language specification against it.

The embedding covers:
* `clean_data` (generators/common.py) — GraphQL response unwrapping;
* `expand_interface_range` (generators/common.py) — bracket-range expansion;
* the fabric-peering and OOB-connection comprehensions
  (generators/generate_dc.py, generators/common.py);
* the rack-assignment logic of `assign_devices_to_racks`
  (generators/common.py);
* the underlay-scenario dispatch of `DCTopologyGenerator.generate`
  (generators/generate_dc.py);
* the create/batch error handling of `_create` and `_create_in_batch`
  (generators/common.py);
* `create_rack_unit_map` (service_catalog/utils/rack.py).
-/

namespace InfrahubDC

/- ============================================================
   Python value model (dicts, lists, primitives) for `clean_data`
   ============================================================ -/

/-- A model of the Python values that flow through `clean_data`:
`None`, booleans, integers, strings, lists and (insertion-ordered) dicts.
Dicts are modelled as association lists; Python dict keys are unique, so
lookup takes the first matching key. -/
inductive PyVal where
  | none : PyVal
  | bool : Bool → PyVal
  | int : Int → PyVal
  | str : String → PyVal
  | list : List PyVal → PyVal
  | dict : List (String × PyVal) → PyVal

/-- `v is None` (Python identity test against the `None` singleton). -/
def PyVal.isNone : PyVal → Bool
  | .none => true
  | _ => false

/-- `isinstance(v, dict)`. -/
def PyVal.isDict : PyVal → Bool
  | .dict _ => true
  | _ => false

/-- Python truthiness of a `PyVal`: `None`, `False`, `0`, `""`, `[]` and `{}`
are falsy, everything else truthy. -/
def truthy : PyVal → Bool
  | .none => false
  | .bool b => b
  | .int n => n != 0
  | .str s => s ≠ ""
  | .list l => !l.isEmpty
  | .dict d => !d.isEmpty

/-- `d.get(k)` on a Python dict: the value at the first matching key, or
`None` when the key is absent. -/
def dictGet : List (String × PyVal) → String → PyVal
  | [], _ => .none
  | (k', v) :: rest, k => if k' = k then v else dictGet rest k

/-- `pat` occurs as a contiguous sublist of the second argument
(Python's `in` operator on strings). -/
def infixOfAux (pat : List Char) : List Char → Bool
  | [] => pat.isEmpty
  | c :: cs => pat.isPrefixOf (c :: cs) || infixOfAux pat cs

/-- Python's `pat in s` substring test. -/
def containsSub (s pat : String) : Bool := infixOfAux pat.toList s.toList

/-- ASCII lower-casing of one character (`str.lower()` on the ASCII strings
this code handles). -/
def charToLower (c : Char) : Char :=
  if 'A' ≤ c ∧ c ≤ 'Z' then Char.ofNat (c.toNat + 32) else c

/-- `s.lower()` for ASCII strings. -/
def strToLower (s : String) : String := String.mk (s.toList.map charToLower)

/-- Whether a key contains a double underscore (`"__" in key`). -/
def hasDunder (k : String) : Bool := containsSub k "__"

/-- `key.replace("__", "")`: removes every occurrence of `__`,
scanning left to right. -/
def removeDunderAux : List Char → List Char
  | [] => []
  | '_' :: '_' :: rest => removeDunderAux rest
  | c :: rest => c :: removeDunderAux rest

/-- `key.replace("__", "")` on a `String`. -/
def removeDunder (k : String) : String := String.mk (removeDunderAux k.toList)

theorem sizeOf_dictGet_le (d : List (String × PyVal)) (k : String) :
    sizeOf (dictGet d k) ≤ sizeOf d := by
  induction d with
  | nil => simp [dictGet]
  | cons hd tl ih =>
    obtain ⟨k', v⟩ := hd
    simp only [dictGet]
    split
    · simp only [List.cons.sizeOf_spec, Prod.mk.sizeOf_spec]; omega
    · simp only [List.cons.sizeOf_spec, Prod.mk.sizeOf_spec]; omega

mutual

/-- Embedding of `clean_data` from `generators/common.py`.
Recursively unwraps GraphQL response envelopes:
attribute dicts with a truthy `"value"`, relationship dicts with a truthy
`"node"`, and `"edges"` wrappers; strips `__` from keys of non-dict values;
cleans list elements, replacing edge objects (dicts whose `"node"` is not
`None`) by their cleaned node. -/
def cleanData : PyVal → PyVal
  | .dict fields => .dict (cleanFields fields)
  | .list items => .list (cleanItems items)
  | v => v
termination_by v => sizeOf v

/-- The dict branch of `clean_data`: processes the entries of a dict
in order, mirroring the Python `for key, value in data.items()` loop. -/
def cleanFields : List (String × PyVal) → List (String × PyVal)
  | [] => []
  | (key, .dict d) :: rest =>
    (key,
      if truthy (dictGet d "value") then dictGet d "value"
      else if truthy (dictGet d "node") then cleanData (dictGet d "node")
      else if truthy (dictGet d "edges") then cleanData (dictGet d "edges")
      else if !truthy (dictGet d "value") then PyVal.none
      else cleanData (.dict d)) :: cleanFields rest
  | (key, value) :: rest =>
    (if hasDunder key then (removeDunder key, value)
     else (key, cleanData value)) :: cleanFields rest
termination_by fs => sizeOf fs
decreasing_by
  all_goals simp_wf
  all_goals
    (try (have h1 := sizeOf_dictGet_le d "node";
          have _h2 := sizeOf_dictGet_le d "edges"))
  all_goals omega

/-- The list branch of `clean_data`: cleans each element, replacing a dict
whose `"node"` entry is not `None` by its cleaned node. -/
def cleanItems : List PyVal → List PyVal
  | [] => []
  | .dict d :: rest =>
    (if !(dictGet d "node").isNone then cleanData (dictGet d "node")
     else cleanData (.dict d)) :: cleanItems rest
  | item :: rest => cleanData item :: cleanItems rest
termination_by its => sizeOf its
decreasing_by
  all_goals simp_wf
  all_goals
    (try (have h1 := sizeOf_dictGet_le d "node";
          have _h2 := sizeOf_dictGet_le d "edges"))
  all_goals omega

end

/- ============================================================
   expand_interface_range (generators/common.py)
   ============================================================ -/

/-- A character of the regex class `\w` (ASCII letters, digits, underscore). -/
def isWordChar (c : Char) : Bool := c.isAlphanum || c == '_'

/-- A character of the regex class `[\w,-]` used inside the brackets of
`RANGE_PATTERN`. -/
def isClassChar (c : Char) : Bool := isWordChar c || c == ',' || c == '-'

/-- Scan the characters following `[` up to the closing `]`: returns the
bracket content and the remaining characters, or `none` when a character
outside the class `[\w,-]` (or the end of the string) is reached before `]`. -/
def grabContent : List Char → Option (List Char × List Char)
  | [] => .none
  | c :: cs =>
    if c == ']' then some ([], cs)
    else if isClassChar c then
      match grabContent cs with
      | some (content, rest) => some (c :: content, rest)
      | none => none
    else none

/-- Leftmost match of `RANGE_PATTERN = (\[[\w,-]*[-,][\w,-]*\])`
(`re.search`): returns `(prefix, bracket content, suffix)` where the bracket
content lies in the class `[\w,-]` and contains at least one `-` or `,`,
or `none` when the pattern does not occur. -/
def findBracket : List Char → Option (List Char × List Char × List Char)
  | [] => none
  | c :: cs =>
    if c == '[' then
      match grabContent cs with
      | some (content, rest) =>
        if content.any (fun x => x == '-' || x == ',') then some ([], content, rest)
        else
          match findBracket cs with
          | some (pre, ct, suf) => some (c :: pre, ct, suf)
          | none => none
      | none =>
        match findBracket cs with
        | some (pre, ct, suf) => some (c :: pre, ct, suf)
        | none => none
    else
      match findBracket cs with
      | some (pre, ct, suf) => some (c :: pre, ct, suf)
      | none => none

/-- Python's `str.split(sep)` for a single-character separator: keeps empty
parts, and splitting the empty string yields `[""]`. -/
def splitOnChar (sep : Char) : List Char → List (List Char)
  | [] => [[]]
  | c :: cs =>
    if c == sep then [] :: splitOnChar sep cs
    else
      match splitOnChar sep cs with
      | h :: t => (c :: h) :: t
      | [] => [[c]]

/-- Python's `str.isdigit` restricted to ASCII: nonempty and all digits. -/
def isDigits (cs : List Char) : Bool := !cs.isEmpty && cs.all (·.isDigit)

/-- `int(s)` for a string of ASCII digits. -/
def digitsToNat (cs : List Char) : Nat := cs.foldl (fun a c => a * 10 + (c.toNat - 48)) 0

/-- `str(i)` for a natural number, as characters (`f"{prefix}{i}{suffix}"`). -/
def natToChars (n : Nat) : List Char := (Nat.repr n).toList

/-- Outcome of processing one comma-separated part of the bracket content in
`expand_interface_range`: `err` models the uncaught `ValueError` raised by
`start, end = part.split("-")` when the part holds more than one hyphen,
`asIs` the `return [interface_name]` taken when a part cannot be parsed,
and `ok` the names the part contributes. -/
inductive PartResult where
  | err : PartResult
  | asIs : PartResult
  | ok : List (List Char) → PartResult
deriving DecidableEq, Repr

/-- One iteration of the `for part in bracket_content.split(",")` loop of
`expand_interface_range`. -/
def expandPart (pre suf : List Char) (part : List Char) : PartResult :=
  match splitOnChar '-' part with
  | [single] => if isDigits single then .ok [pre ++ single ++ suf] else .asIs
  | [s, e] =>
    if isDigits s && isDigits e then
      .ok ((List.range' (digitsToNat s) (digitsToNat e + 1 - digitsToNat s)).map
            (fun i => pre ++ natToChars i ++ suf))
    else .asIs
  | _ => .err

/-- The whole part-processing loop of `expand_interface_range`: an `err` or
`asIs` outcome at any part aborts the loop (exception / early return). -/
def collectParts (pre suf : List Char) : List (List Char) → PartResult
  | [] => .ok []
  | p :: rest =>
    match expandPart pre suf p with
    | .err => .err
    | .asIs => .asIs
    | .ok names =>
      match collectParts pre suf rest with
      | .err => .err
      | .asIs => .asIs
      | .ok names' => .ok (names ++ names')

/-- Embedding of `expand_interface_range` over character lists.
`Except.error ()` models an uncaught `ValueError`. -/
def expandInterfaceRangeL (name : List Char) : Except Unit (List (List Char)) :=
  match findBracket name with
  | none => .ok [name]
  | some (pre, content, suf) =>
    match collectParts pre suf (splitOnChar ',' content) with
    | .err => .error ()
    | .asIs => .ok [name]
    | .ok names => .ok (if names.isEmpty then [name] else names)

/-- Embedding of `expand_interface_range` from `generators/common.py`. -/
def expandInterfaceRange (name : String) : Except Unit (List String) :=
  (expandInterfaceRangeL name.toList).map (·.map (fun cs => String.mk cs))

/- ============================================================
   Fabric peering (DCTopologyCreator.create_fabric_peering)
   ============================================================ -/

/-- A connection dictionary emitted by the cabling comprehensions:
`{"source": …, "target": …, "source_interface": …,
"destination_interface": …}`. -/
structure Conn where
  source : String
  target : String
  sourceInterface : String
  destinationInterface : String
deriving DecidableEq, Repr

/-- The inner loop of the full-mesh comprehension in
`create_fabric_peering`, for one source device `sname` holding the remaining
interface list: walks the destination devices in order and, whenever both
the source list and the destination's list are nonempty, emits a connection
and pops the head of each (`pop(0)`).  Returns the emitted connections, the
source's remaining interfaces and the updated destinations. -/
def popRow (sname : String) :
    List String → List (String × List String) →
    List Conn × List String × List (String × List String)
  | sifs, [] => ([], sifs, [])
  | s :: stl, (dname, d :: dtl) :: drest =>
    let r := popRow sname stl drest
    (⟨sname, dname, s, d⟩ :: r.1, r.2.1, (dname, dtl) :: r.2.2)
  | sifs, (dname, difs) :: drest =>
    let r := popRow sname sifs drest
    (r.1, r.2.1, (dname, difs) :: r.2.2)

/-- The full double comprehension of `create_fabric_peering`
(`for spine … for leaf … if spine_interfaces and leaf_interfaces`):
processes the source devices in order, threading the destination lists,
which are shared across all sources. -/
def popMesh :
    List (String × List String) → List (String × List String) →
    List Conn × List (String × List String)
  | [], dests => ([], dests)
  | (sname, sifs) :: srest, dests =>
    let r := popRow sname sifs dests
    let r' := popMesh srest r.2.2
    (r.1 ++ r'.1, r'.2)

/-- An interface entry of an expanded device template: name and role. -/
structure TIface where
  name : String
  role : String
deriving DecidableEq, Repr

/-- The sorted list of interface names of a given role, as built by the
dict comprehensions of `create_fabric_peering`
(`safe_sort_interface_list([... if iface.role == role])`).  The sort
function (netutils with alphabetical fallback) is a parameter. -/
def roleIfaces (sort : List String → List String) (role : String)
    (ifaces : List TIface) : List String :=
  sort ((ifaces.filter (fun i => i.role == role)).map (·.name))

/-- Embedding of the connection-building part of `create_fabric_peering`:
from the per-device interface map (device name ↦ template interfaces of roles
`leaf`/`uplink`), builds the four sorted groups (spine leaf-facing ports,
spine border-facing ports, leaf uplinks, border-leaf uplinks) and runs the
two full-mesh comprehensions. -/
def fabricPeeringConnections (sort : List String → List String)
    (interfaces : List (String × List TIface)) : List Conn :=
  let spinesLeaves := (interfaces.filter (fun p => containsSub p.1 "spine")).map
    (fun p => (p.1, roleIfaces sort "leaf" p.2))
  let spineBorders := (interfaces.filter (fun p => containsSub p.1 "spine")).map
    (fun p => (p.1, roleIfaces sort "uplink" p.2))
  let leafs := (interfaces.filter
      (fun p => containsSub p.1 "leaf" && !containsSub p.1 "border")).map
    (fun p => (p.1, roleIfaces sort "uplink" p.2))
  let borderLeafs := (interfaces.filter (fun p => containsSub p.1 "border_leaf")).map
    (fun p => (p.1, roleIfaces sort "uplink" p.2))
  (popMesh spinesLeaves leafs).1 ++ (popMesh spineBorders borderLeafs).1

/- ============================================================
   OOB / console connections (TopologyCreator.create_oob_connections)
   ============================================================ -/

/-- `int(s)` on the last hyphen-separated piece of a device name
(`int(device.split("-")[-1])`); `none` models the `ValueError` raised when
the piece is not numeric. -/
def lastDashNum (s : String) : Option Nat :=
  match (splitOnChar '-' s.toList).getLast? with
  | some piece => if isDigits piece then some (digitsToNat piece) else none
  | none => none

/-- The inner loop of the connection comprehension in
`create_oob_connections`: like `popRow`, but a pair is connected only when
the trailing numbers of the two device names have equal parity; a
non-numeric trailing piece (evaluated only when both lists are nonempty)
raises `ValueError`, modelled as `Except.error`. -/
def popRowParity (sname : String) :
    List String → List (String × List String) →
    Except Unit (List Conn × List String × List (String × List String))
  | sifs, [] => .ok ([], sifs, [])
  | s :: stl, (dname, d :: dtl) :: drest =>
    match lastDashNum dname, lastDashNum sname with
    | some dn, some sn =>
      if dn % 2 == sn % 2 then
        match popRowParity sname stl drest with
        | .ok r => .ok (⟨sname, dname, s, d⟩ :: r.1, r.2.1, (dname, dtl) :: r.2.2)
        | .error e => .error e
      else
        match popRowParity sname (s :: stl) drest with
        | .ok r => .ok (r.1, r.2.1, (dname, d :: dtl) :: r.2.2)
        | .error e => .error e
    | _, _ => .error ()
  | sifs, (dname, difs) :: drest =>
    match popRowParity sname sifs drest with
    | .ok r => .ok (r.1, r.2.1, (dname, difs) :: r.2.2)
    | .error e => .error e

/-- The full double comprehension of `create_oob_connections`. -/
def popMeshParity :
    List (String × List String) → List (String × List String) →
    Except Unit (List Conn × List (String × List String))
  | [], dests => .ok ([], dests)
  | (sname, sifs) :: srest, dests =>
    match popRowParity sname sifs dests with
    | .ok r =>
      match popMeshParity srest r.2.2 with
      | .ok r' => .ok (r.1 ++ r'.1, r'.2)
      | .error e => .error e
    | .error e => .error e

/-- Embedding of the connection-building part of `create_oob_connections`:
from the per-device template interface lists, keeps the interfaces of the
requested role, selects sources (devices whose name contains `"oob"` for
management, `"console"` otherwise, with a nonempty list) and destinations
(remaining devices with a nonempty list), sorts each list, and runs the
parity-constrained mesh. -/
def oobConnections (sort : List String → List String) (connectionType : String)
    (interfaces : List (String × List TIface)) : Except Unit (List Conn) :=
  let ifmap := interfaces.map
    (fun p => (p.1, (p.2.filter (fun i => i.role == connectionType)).map (·.name)))
  let deviceKey := if connectionType == "management" then "oob" else "console"
  let sources := (ifmap.filter
      (fun p => containsSub p.1 deviceKey && !p.2.isEmpty)).map
    (fun p => (p.1, sort p.2))
  let sourceNames := sources.map Prod.fst
  let dests := (ifmap.filter
      (fun p => !sourceNames.contains p.1 && !p.2.isEmpty)).map
    (fun p => (p.1, sort p.2))
  (popMeshParity sources dests).map (·.1)

/- ============================================================
   Rack assignment (TopologyCreator.assign_devices_to_racks)
   ============================================================ -/

/-- A created device as seen by `assign_devices_to_racks`: its name, its
role value, and the height in rack units returned by `get_device_height`. -/
structure RDev where
  name : String
  role : String
  height : Int
deriving DecidableEq, Repr

/-- `[d for d in self.devices if d.role.value == "leaf"]`. -/
def leafDevices (devs : List RDev) : List RDev :=
  devs.filter (fun d => d.role == "leaf")

/-- `[d for d in self.devices if d.role.value == "border_leaf"]`. -/
def borderLeafDevices (devs : List RDev) : List RDev :=
  devs.filter (fun d => d.role == "border_leaf")

/-- `[d for d in self.devices if d.role.value == "spine"]`. -/
def spineDevices (devs : List RDev) : List RDev :=
  devs.filter (fun d => d.role == "spine")

/-- `[d for d in self.devices if "console" in d.role.value.lower()]`. -/
def consoleDevices (devs : List RDev) : List RDev :=
  devs.filter (fun d => containsSub (strToLower d.role) "console")

/-- `[d for d in self.devices if "oob" in d.role.value.lower()]`. -/
def oobDevices (devs : List RDev) : List RDev :=
  devs.filter (fun d => containsSub (strToLower d.role) "oob")

/-- `total_racks = len(leaf_devices)`. -/
def totalRacks (devs : List RDev) : Nat := (leafDevices devs).length

/-- `middle_device_count = max(len(spine_devices),
len(border_leaf_devices) + len(console_devices) + len(oob_devices))`. -/
def middleDeviceCount (devs : List RDev) : Nat :=
  max (spineDevices devs).length
    ((borderLeafDevices devs).length + (consoleDevices devs).length +
      (oobDevices devs).length)

/-- `middle_start = (total_racks // 2) - (middle_device_count // 2)`
(Python floor division on ints). -/
def middleStart (devs : List RDev) : Int :=
  (totalRacks devs : Int) / 2 - (middleDeviceCount devs : Int) / 2

/-- `middle_racks = list(range(middle_start + 1,
middle_start + middle_device_count + 1))`. -/
def middleRacks (devs : List RDev) : List Int :=
  (List.range (middleDeviceCount devs)).map
    (fun i => middleStart devs + 1 + Int.ofNat i)

/-- An occupancy record `(device, position, height)` as appended to
`rack_occupancy[rack_num]`. -/
abbrev OccEntry := RDev × Int × Int

/-- `rack_occupancy = {i: [] for i in range(1, total_racks + 1)}`. -/
def initOccupancy (total : Nat) : List (Int × List OccEntry) :=
  (List.range total).map (fun i => (Int.ofNat (i + 1), []))

/-- Dictionary lookup `rack_occupancy[r]` (as an `Option`, `none` being a
`KeyError`). -/
def occLookup : List (Int × List OccEntry) → Int → Option (List OccEntry)
  | [], _ => none
  | (k, l) :: rest, r => if k = r then some l else occLookup rest r

/-- `rack_occupancy[r].append(e)`; `none` models the `KeyError` raised when
the key is missing. -/
def occAppend (occ : List (Int × List OccEntry)) (r : Int) (e : OccEntry) :
    Option (List (Int × List OccEntry)) :=
  if (occLookup occ r).isSome then
    some (occ.map (fun p => if p.1 = r then (p.1, p.2 ++ [e]) else p))
  else none

/-- `get_device_number`: `int(device_name.split("-")[-1])`; `none` models
the `ValueError` on a non-numeric trailing piece. -/
def getDeviceNumber (name : String) : Option Int :=
  (lastDashNum name).map (fun n => (n : Int))

/-- One iteration of the leaf-placement loop of `assign_devices_to_racks`:
a leaf whose number exceeds the rack count is skipped with a warning;
otherwise `(device, 42 - (height - 1), height)` is appended to the rack
whose number equals the device number. -/
def assignLeafStep (total : Nat) (occ : List (Int × List OccEntry))
    (d : RDev) : Option (List (Int × List OccEntry)) :=
  match getDeviceNumber d.name with
  | none => none
  | some num =>
    if num > (total : Int) then some occ
    else occAppend occ num (d, 42 - (d.height - 1), d.height)

/-- The leaf-placement phase of `assign_devices_to_racks`: the leaf loop
run over the freshly initialised `rack_occupancy`. -/
def assignLeafs (devs : List RDev) : Option (List (Int × List OccEntry)) :=
  (leafDevices devs).foldlM (assignLeafStep (totalRacks devs))
    (initOccupancy (totalRacks devs))

/- ============================================================
   Scenario dispatch (DCTopologyGenerator.generate)
   ============================================================ -/

/-- `data.get("scenario", data.get("strategy", "ospf")).lower()` followed by
the normalisation chain of `DCTopologyGenerator.generate`. -/
def normalizeScenario (scenario strategy : Option String) : String :=
  let raw := strToLower (scenario.getD (strategy.getD "ospf"))
  if raw = "ebgp-ibgp" ∨ raw = "ebgp" then "ebgp"
  else if raw = "ospf-ibgp" ∨ raw = "ospf" then "ospf"
  else "ospf"

/-- The routing-protocol creation calls of Phase 6 of
`DCTopologyGenerator.generate`. -/
inductive DCAction where
  | ospfUnderlay : DCAction
  | createASNs : String → DCAction
  | createPeerGroups : String → DCAction
  | ebgpUnderlay : String → DCAction
  | ibgpOverlay : String → String → DCAction
deriving DecidableEq, Repr

/-- Phase 6 of `DCTopologyGenerator.generate`: the sequence of routing
creation calls made for a normalised scenario. -/
def routingPhase (scenario : String) : List DCAction :=
  if scenario = "ospf" then
    [.ospfUnderlay, .createASNs "ospf", .createPeerGroups "ospf",
     .ibgpOverlay "loopback1" "overlay"]
  else
    [.createASNs "ebgp", .createPeerGroups "ebgp", .ebgpUnderlay "loopback0",
     .ibgpOverlay "loopback1" "evpn"]

/- ============================================================
   Error handling of _create / _create_in_batch
   ============================================================ -/

/-- The outcome of one platform create/save call: success with the object
name, or a failure (GraphQLError / ValidationError) with a message. -/
inductive CreateOutcome where
  | ok : String → CreateOutcome
  | err : String → CreateOutcome
deriving DecidableEq, Repr

/-- Embedding of `TopologyCreator._create_in_batch`: each failing item is
logged (`"- Creation failed due to …"`) and skipped, successes are queued;
the function always returns (no exception escapes).  Result:
`(queued object names, failure log messages)`. -/
def createInBatch : List CreateOutcome → List String × List String
  | [] => ([], [])
  | .ok n :: rest =>
    let r := createInBatch rest
    (n :: r.1, r.2)
  | .err m :: rest =>
    let r := createInBatch rest
    (r.1, ("- Creation failed due to " ++ m) :: r.2)

/-- Embedding of `TopologyCreator._create`: a failure is logged and then
re-raised (`raise`), so the caller sees the exception. -/
def createSingle : CreateOutcome → Except String String
  | .ok n => .ok n
  | .err m => .error m

/-- A sequence of awaited `_create` calls, as issued by
`DCTopologyGenerator.generate` (site, pod, row, pools, …): the first
failure propagates and aborts the remaining creations. -/
def runSingleCreates : List CreateOutcome → Except String (List String)
  | [] => .ok []
  | o :: rest =>
    match createSingle o with
    | .ok n => (runSingleCreates rest).map (fun l => n :: l)
    | .error m => .error m

/- ============================================================
   create_rack_unit_map (service_catalog/utils/rack.py)
   ============================================================ -/

/-- A device dictionary as consumed by `create_rack_unit_map`:
`position` and `height` model `d.get("position", {}).get("value")` and
`d.get("height", {}).get("value", 1)` (`none` = missing key or null). -/
structure VDev where
  name : String
  position : Option Int
  height : Option Int
deriving DecidableEq, Repr

/-- The sort key `d.get("position", {}).get("value", 0) or 0`. -/
def sortKey (d : VDev) : Int :=
  match d.position with
  | some p => p
  | none => 0

/-- Insert into an already position-sorted list, before the first device
with a strictly larger key (ties keep the inserted element first, matching
the uniqueness of stable sorting). -/
def insertByKey (x : VDev) : List VDev → List VDev
  | [] => [x]
  | y :: ys => if sortKey x ≤ sortKey y then x :: y :: ys else y :: insertByKey x ys

/-- `sorted(devices, key=…)`: Python's sort is stable, and a stable sort's
output is uniquely determined, so insertion sort gives the same list. -/
def sortByPos : List VDev → List VDev
  | [] => []
  | x :: xs => insertByKey x (sortByPos xs)

/-- The effective height: `1` when the height value is missing, null or
below `1`. -/
def effHeight (d : VDev) : Int :=
  match d.height with
  | none => 1
  | some h => if h < 1 then 1 else h

/-- The per-unit info dictionary built by `create_rack_unit_map`
(`device`, `span`, `position` type, `unit_offset`), computed from the
clamped start/end units `s`/`e` of the device at unit `u`. -/
structure UnitInfo where
  device : VDev
  span : Int
  posType : String
  unitOffset : Int
deriving DecidableEq, Repr

/-- The info stored at unit `u` for device `d` spanning clamped units
`s`..`e`. -/
def unitInfoAt (d : VDev) (s e u : Int) : UnitInfo :=
  let off := u - s
  let span := e - s + 1
  { device := d
    span := span
    posType :=
      if span = 1 then "single"
      else if off = 0 then "start"
      else if off = span - 1 then "end"
      else "middle"
    unitOffset := off }

/-- The rack dictionary: unit number ↦ occupying device info or `None`. -/
abbrev RackMap := List (Int × Option UnitInfo)

/-- `{unit: None for unit in range(1, rack_height + 1)}`. -/
def emptyRack (h : Nat) : RackMap :=
  (List.range h).map (fun u => (Int.ofNat (u + 1), none))

/-- Dictionary lookup `rack_units[u]` (outer `none` = missing key). -/
def rackLookup : RackMap → Int → Option (Option UnitInfo)
  | [], _ => none
  | (k, v) :: rest, u => if k = u then some v else rackLookup rest u

/-- Assign unit `u` to `i` unless the unit is already occupied
(`if rack_units[unit] is not None: continue`). -/
def trySet (m : RackMap) (u : Int) (i : UnitInfo) : RackMap :=
  m.map (fun p => if p.1 = u ∧ p.2 = Option.none then (p.1, some i) else p)

/-- `range(start_unit, end_unit + 1)` over integers. -/
def unitRange (s e : Int) : List Int :=
  (List.range (e + 1 - s).toNat).map (fun i => s + Int.ofNat i)

/-- The inner unit loop of `create_rack_unit_map` for one device with
clamped start/end units `s`/`e`. -/
def placeUnits (d : VDev) (s e : Int) (m : RackMap) : RackMap :=
  (unitRange s e).foldl (fun m u => trySet m u (unitInfoAt d s e u)) m

/-- The body of the device loop of `create_rack_unit_map`: skips devices
with missing or non-positive position and devices entirely outside the
rack, clamps the occupied span to the rack bounds, and assigns the units. -/
def placeDevice (h : Nat) (m : RackMap) (d : VDev) : RackMap :=
  match d.position with
  | none => m
  | some p =>
    if p ≤ 0 then m
    else
      let startU := p
      let endU := p + effHeight d - 1
      if startU > (h : Int) ∨ endU < 1 then m
      else placeUnits d (max 1 startU) (min (h : Int) endU) m

/-- Embedding of `create_rack_unit_map` from
`service_catalog/utils/rack.py` (for the non-negative rack heights the
claim quantifies over). -/
def createRackUnitMap (h : Nat) (devices : List VDev) : RackMap :=
  (sortByPos devices).foldl (placeDevice h) (emptyRack h)

/-- Membership of an occupancy entry in a rack of the occupancy dict. -/
def occMem (occ : List (Int × List OccEntry)) (r : Int) (e : OccEntry) : Prop :=
  ∃ l, occLookup occ r = some l ∧ e ∈ l

/-- The invariant maintained by the leaf-placement loop: every recorded
entry sits in the rack matching its device's trailing number, at the
top-of-rack position `42 - (height - 1)`. -/
def leafInv (occ : List (Int × List OccEntry)) : Prop :=
  ∀ r l, occLookup occ r = some l → ∀ ent ∈ l,
    getDeviceNumber ent.1.name = some r ∧ ent.2.1 = 42 - (ent.1.height - 1) ∧
      ent.2.2 = ent.1.height

/-- The clamped span condition under which `create_rack_unit_map` lets
device `d` occupy unit `u` of an `h`-unit rack: a present positive position
`p`, the device not entirely outside the rack, and `u` within the clamped
range `max 1 p .. min h (p + height - 1)`. -/
def covers (h : Nat) (d : VDev) (u : Int) : Prop :=
  ∃ p, d.position = some p ∧ 0 < p ∧
    ¬(p > (h : Int) ∨ p + effHeight d - 1 < 1) ∧
    u ∈ unitRange (max 1 p) (min (h : Int) (p + effHeight d - 1))

/- ============================================================
   Theorems
   ============================================================ -/

theorem normalizeScenario_eq (scenario strategy : Option String) :
    normalizeScenario scenario strategy =
      if strToLower (scenario.getD (strategy.getD "ospf")) = "ebgp-ibgp" ∨
          strToLower (scenario.getD (strategy.getD "ospf")) = "ebgp"
      then "ebgp" else "ospf" := by
  by_cases h : strToLower (scenario.getD (strategy.getD "ospf")) = "ebgp-ibgp" ∨
      strToLower (scenario.getD (strategy.getD "ospf")) = "ebgp"
  · simp [normalizeScenario, h]
  · simp [normalizeScenario, h]

/-- C5: For every topology design, the DC generator creates the iBGP EVPN
overlay sessions; the underlay is eBGP exactly when the design's scenario
(or strategy) field, lower-cased, is "ebgp" or "ebgp-ibgp", and is OSPF for
"ospf", "ospf-ibgp", a missing field, or any other value; in a single run
exactly one of the two underlay kinds is created, never both. -/
theorem c5_underlay_overlay_scenario (scenario strategy : Option String) :
    (∃ l t, DCAction.ibgpOverlay l t ∈
        routingPhase (normalizeScenario scenario strategy)) ∧
    ((∃ l, DCAction.ebgpUnderlay l ∈
        routingPhase (normalizeScenario scenario strategy)) ↔
      (strToLower (scenario.getD (strategy.getD "ospf")) = "ebgp" ∨
        strToLower (scenario.getD (strategy.getD "ospf")) = "ebgp-ibgp")) ∧
    (DCAction.ospfUnderlay ∈ routingPhase (normalizeScenario scenario strategy) ↔
      ¬(strToLower (scenario.getD (strategy.getD "ospf")) = "ebgp" ∨
        strToLower (scenario.getD (strategy.getD "ospf")) = "ebgp-ibgp")) ∧
    ¬(DCAction.ospfUnderlay ∈ routingPhase (normalizeScenario scenario strategy) ∧
      ∃ l, DCAction.ebgpUnderlay l ∈
        routingPhase (normalizeScenario scenario strategy)) := by
  rw [normalizeScenario_eq]
  by_cases h : strToLower (scenario.getD (strategy.getD "ospf")) = "ebgp-ibgp" ∨
      strToLower (scenario.getD (strategy.getD "ospf")) = "ebgp"
  · rw [if_pos h]
    refine ⟨⟨"loopback1", "evpn", by simp [routingPhase]⟩, ?_, ?_, ?_⟩
    · simp only [routingPhase]
      constructor
      · intro _; tauto
      · intro _; exact ⟨"loopback0", by simp⟩
    · simp [routingPhase]
      tauto
    · simp [routingPhase]
  · rw [if_neg h]
    refine ⟨⟨"loopback1", "overlay", by simp [routingPhase]⟩, ?_, ?_, ?_⟩
    · simp only [routingPhase]
      constructor
      · rintro ⟨l, hl⟩
        simp at hl
      · intro hc; tauto
    · simp [routingPhase]
      tauto
    · simp only [routingPhase]
      rintro ⟨-, l, hl⟩
      simp at hl

/-- C7 (counterexample): a failing `_create` call is re-raised and aborts
the sequence of single-object creations, so a later object is never
created — the failure is not merely logged. -/
theorem c7_counterexample :
    runSingleCreates [.err "boom", .ok "site"] = .error "boom" ∧
    runSingleCreates [.err "boom", .ok "site"] ≠ .ok ["site"] ∧
    createSingle (.err "boom") = .error "boom" := by
  refine ⟨rfl, ?_, rfl⟩
  intro hc
  simp [runSingleCreates, createSingle] at hc

/-- C7 (amended): a failure inside `_create_in_batch` is only logged and
the batch continues with the remaining objects, each object being attempted
exactly once (never retried); a failure in `_create` is logged and then
re-raised, aborting the sequence of creations. -/
theorem c7_amended_error_handling :
    (∀ m rest, createInBatch (.err m :: rest) =
      ((createInBatch rest).1,
        ("- Creation failed due to " ++ m) :: (createInBatch rest).2)) ∧
    (∀ n rest, createInBatch (.ok n :: rest) =
      (n :: (createInBatch rest).1, (createInBatch rest).2)) ∧
    (∀ items, (createInBatch items).1 = items.filterMap
      (fun o => match o with | .ok n => some n | .err _ => Option.none)) ∧
    (∀ m, createSingle (.err m) = .error m) ∧
    (∀ m rest, runSingleCreates (.err m :: rest) = .error m) := by
  refine ⟨fun m rest => rfl, fun n rest => rfl, ?_, fun m => rfl, fun m rest => rfl⟩
  intro items
  induction items with
  | nil => rfl
  | cons o rest ih =>
    cases o with
    | ok n => simp [createInBatch, ih]
    | err m => simp [createInBatch, ih]

/-- C6 (counterexample): on `"Eth[1-2-3]"` the bracket content cannot be
parsed as numbers, but instead of returning the singleton input unchanged,
`expand_interface_range` raises an uncaught `ValueError` from the tuple
unpacking `start, end = part.split("-")`. -/
theorem c6_counterexample :
    expandInterfaceRange "Eth[1-2-3]" = .error () ∧
    expandInterfaceRange "Eth[1-2-3]" ≠ .ok ["Eth[1-2-3]"] := by
  refine ⟨rfl, ?_⟩
  intro hc
  rw [show expandInterfaceRange "Eth[1-2-3]" = .error () from rfl] at hc
  exact Except.noConfusion hc

/-- C6 (amended): `expand_interface_range` expands bracket ranges with
numeric bounds inclusively, preserving prefix and suffix and expanding each
comma-separated part, and returns the singleton input unchanged when there
is no bracket notation or a part fails to parse as numbers — except that a
part containing two or more hyphens raises an uncaught `ValueError`. -/
theorem c6_amended_expand_range :
    expandInterfaceRange "Ethernet[1-3]" = .ok ["Ethernet1", "Ethernet2", "Ethernet3"] ∧
    expandInterfaceRange "Eth[1,3-4]/0" = .ok ["Eth1/0", "Eth3/0", "Eth4/0"] ∧
    expandInterfaceRange "Eth[a-b]" = .ok ["Eth[a-b]"] ∧
    (∀ pre suf part s e, splitOnChar '-' part = [s, e] →
      isDigits s = true → isDigits e = true →
      expandPart pre suf part = .ok
        ((List.range' (digitsToNat s) (digitsToNat e + 1 - digitsToNat s)).map
          (fun i => pre ++ natToChars i ++ suf))) ∧
    (∀ name : String, findBracket name.toList = none →
      expandInterfaceRange name = .ok [name]) ∧
    (∀ name pre ct suf, findBracket name.toList = some (pre, ct, suf) →
      collectParts pre suf (splitOnChar ',' ct) = .asIs →
      expandInterfaceRange name = .ok [name]) ∧
    (∀ name pre ct suf, findBracket name.toList = some (pre, ct, suf) →
      collectParts pre suf (splitOnChar ',' ct) = .err →
      expandInterfaceRange name = .error ()) := by
  refine ⟨rfl, rfl, rfl, ?_, ?_, ?_, ?_⟩
  · intro pre suf part s e hsplit hs he
    simp [expandPart, hsplit, hs, he]
  · intro name h
    obtain ⟨dat⟩ := name
    simp only [String.toList] at h
    simp [expandInterfaceRange, expandInterfaceRangeL, String.toList, Except.map, h]
  · intro name pre ct suf h hc
    obtain ⟨dat⟩ := name
    simp only [String.toList] at h
    simp [expandInterfaceRange, expandInterfaceRangeL, String.toList, Except.map, h, hc]
  · intro name pre ct suf h hc
    obtain ⟨dat⟩ := name
    simp only [String.toList] at h
    simp [expandInterfaceRange, expandInterfaceRangeL, String.toList, Except.map, h, hc]

/-- C6 witness: concrete instances of the conditional clauses of the amended
claim. -/
theorem c6_witness :
    expandPart "Eth".toList "/1".toList "2-4".toList = .ok
      ["Eth2/1".toList, "Eth3/1".toList, "Eth4/1".toList] ∧
    expandInterfaceRange "Ethernet5" = .ok ["Ethernet5"] ∧
    expandInterfaceRange "Eth[a-b]x" = .ok ["Eth[a-b]x"] ∧
    expandInterfaceRange "E[9-8-7]" = .error () := by
  obtain ⟨-, -, -, hpart, hnone, hasis, herr⟩ := c6_amended_expand_range
  refine ⟨?_, ?_, ?_, ?_⟩
  · rw [hpart "Eth".toList "/1".toList "2-4".toList "2".toList "4".toList
      (by decide) (by decide) (by decide)]
    decide
  · exact hnone "Ethernet5" (by decide)
  · exact hasis "Eth[a-b]x" "Eth".toList "a-b".toList "x".toList (by decide) (by decide)
  · exact herr "E[9-8-7]" "E".toList "9-8-7".toList [] (by decide) (by decide)

/-- C1 (counterexample): `clean_data` does not map the entry
`{"a": {"value": 0}}` to `{"a": 0}`: the truthiness test
`value.get("value")` sends a falsy stored value to `None`. -/
theorem c1_counterexample :
    cleanData (.dict [("a", .dict [("value", .int 0)])]) = .dict [("a", PyVal.none)] ∧
    cleanData (.dict [("a", .dict [("value", .int 0)])]) ≠ .dict [("a", PyVal.int 0)] := by
  constructor
  · simp [cleanData, cleanFields, dictGet, truthy]
  · simp [cleanData, cleanFields, dictGet, truthy]

/-- C1 (amended): `clean_data` normalizes a query response as follows.  A
dict entry whose value is a dict with truthy `"value"` maps to the raw
stored value; otherwise with truthy `"node"` to the cleaned node; otherwise
with truthy `"edges"` to the cleaned edges; every other dict-valued entry
maps to `None`.  For a non-dict value, a key containing `"__"` has the
double underscores removed and keeps its raw (uncleaned) value, and any
other entry keeps the key with the cleaned value.  A list element that is a
dict whose `"node"` is not `None` is replaced by its cleaned node; other
elements are cleaned in place.  Primitive values are returned unchanged. -/
theorem c1_amended_clean_data :
    (cleanData PyVal.none = PyVal.none) ∧
    (∀ b, cleanData (.bool b) = .bool b) ∧
    (∀ n, cleanData (.int n) = .int n) ∧
    (∀ s, cleanData (.str s) = .str s) ∧
    (∀ fs, cleanData (.dict fs) = .dict (cleanFields fs)) ∧
    (∀ its, cleanData (.list its) = .list (cleanItems its)) ∧
    (∀ k d rest, truthy (dictGet d "value") = true →
      cleanFields ((k, .dict d) :: rest) =
        (k, dictGet d "value") :: cleanFields rest) ∧
    (∀ k d rest, truthy (dictGet d "value") = false →
      truthy (dictGet d "node") = true →
      cleanFields ((k, .dict d) :: rest) =
        (k, cleanData (dictGet d "node")) :: cleanFields rest) ∧
    (∀ k d rest, truthy (dictGet d "value") = false →
      truthy (dictGet d "node") = false →
      truthy (dictGet d "edges") = true →
      cleanFields ((k, .dict d) :: rest) =
        (k, cleanData (dictGet d "edges")) :: cleanFields rest) ∧
    (∀ k d rest, truthy (dictGet d "value") = false →
      truthy (dictGet d "node") = false →
      truthy (dictGet d "edges") = false →
      cleanFields ((k, .dict d) :: rest) = (k, PyVal.none) :: cleanFields rest) ∧
    (∀ k v rest, v.isDict = false → hasDunder k = true →
      cleanFields ((k, v) :: rest) = (removeDunder k, v) :: cleanFields rest) ∧
    (∀ k v rest, v.isDict = false → hasDunder k = false →
      cleanFields ((k, v) :: rest) = (k, cleanData v) :: cleanFields rest) ∧
    (∀ d rest, (dictGet d "node").isNone = false →
      cleanItems (.dict d :: rest) =
        cleanData (dictGet d "node") :: cleanItems rest) ∧
    (∀ item rest, item.isDict = false →
      cleanItems (item :: rest) = cleanData item :: cleanItems rest) := by
  refine ⟨by simp [cleanData], fun b => by simp [cleanData],
    fun n => by simp [cleanData], fun s => by simp [cleanData],
    fun fs => by simp [cleanData], fun its => by simp [cleanData],
    ?_, ?_, ?_, ?_, ?_, ?_, ?_, ?_⟩
  · intro k d rest hv
    rw [cleanFields]
    simp [hv]
  · intro k d rest hv hn
    rw [cleanFields]
    simp [hv, hn]
  · intro k d rest hv hn he
    rw [cleanFields]
    simp [hv, hn, he]
  · intro k d rest hv hn he
    rw [cleanFields]
    simp [hv, hn, he]
  · intro k v rest hv hd
    cases v <;> simp_all [cleanFields, PyVal.isDict]
  · intro k v rest hv hd
    cases v <;> simp_all [cleanFields, PyVal.isDict]
  · intro d rest hn
    rw [cleanItems]
    simp [hn]
  · intro item rest hi
    cases item <;> simp_all [cleanItems, PyVal.isDict]

/-- C1 witness: concrete instances of the conditional clauses of the amended
claim. -/
theorem c1_witness :
    cleanFields [("a", PyVal.dict [("value", PyVal.int 7)])] = [("a", PyVal.int 7)] ∧
    cleanFields [("x__y", PyVal.int 1)] = [("xy", PyVal.int 1)] ∧
    cleanItems [PyVal.dict [("node", PyVal.int 3)]] = [PyVal.int 3] := by
  obtain ⟨-, -, -, -, -, -, hval, -, -, -, hdun, -, hnode, -⟩ := c1_amended_clean_data
  refine ⟨?_, ?_, ?_⟩
  · rw [hval "a" [("value", PyVal.int 7)] [] (by simp [dictGet, truthy])]
    simp [dictGet, cleanFields]
  · rw [hdun "x__y" (PyVal.int 1) [] (by simp [PyVal.isDict]) (by decide)]
    simp [cleanFields, removeDunder, removeDunderAux]
  · rw [hnode [("node", PyVal.int 3)] [] (by simp [dictGet, PyVal.isNone])]
    simp [dictGet, cleanData, cleanItems]

theorem occLookup_map_update (occ : List (Int × List OccEntry)) (r r' : Int)
    (e : OccEntry) :
    occLookup (occ.map (fun p => if p.1 = r then (p.1, p.2 ++ [e]) else p)) r' =
      if r' = r then (occLookup occ r').map (fun l => l ++ [e])
      else occLookup occ r' := by
  induction occ with
  | nil => by_cases h : r' = r <;> simp [occLookup, h]
  | cons hd tl ih =>
    obtain ⟨k, l⟩ := hd
    simp only [List.map_cons]
    by_cases hk : k = r
    · subst hk
      rw [if_pos rfl]
      by_cases hr' : r' = k
      · subst hr'
        simp [occLookup]
      · simp only [occLookup, hr', if_false, ih]
        simp only [if_neg (show ¬k = r' from fun h => hr' h.symm), if_neg hr']
    · rw [if_neg hk]
      by_cases hr' : r' = k
      · subst hr'
        simp [occLookup, hk]
      · simp only [occLookup, hr', if_false, ih]
        simp only [if_neg (show ¬k = r' from fun h => hr' h.symm)]

theorem occAppend_lookup {occ : List (Int × List OccEntry)} {r : Int}
    {e : OccEntry} {occ' : List (Int × List OccEntry)}
    (h : occAppend occ r e = some occ') (r' : Int) :
    occLookup occ' r' = if r' = r then (occLookup occ r').map (fun l => l ++ [e])
      else occLookup occ r' := by
  unfold occAppend at h
  split at h
  · injection h with h'
    subst h'
    exact occLookup_map_update occ r r' e
  · cases h

theorem occAppend_of_isSome (occ : List (Int × List OccEntry)) (r : Int)
    (e : OccEntry) (h : (occLookup occ r).isSome = true) :
    occAppend occ r e =
      some (occ.map (fun p => if p.1 = r then (p.1, p.2 ++ [e]) else p)) := by
  unfold occAppend
  rw [if_pos h]

theorem foldlM_step_inv {σ α : Type} (f : σ → α → Option σ) (P : σ → Prop)
    (hstep : ∀ s a s', f s a = some s' → P s → P s') :
    ∀ (ds : List α) (s s' : σ), ds.foldlM f s = some s' → P s → P s'
  | [], s, s', h, hp => by
    simp only [List.foldlM_nil] at h
    injection h with h'
    exact h' ▸ hp
  | a :: ds, s, s', h, hp => by
    rw [List.foldlM_cons] at h
    rcases Option.bind_eq_some.mp h with ⟨s1, h1, h2⟩
    exact foldlM_step_inv f P hstep ds s1 s' h2 (hstep s a s1 h1 hp)

theorem assignLeafStep_isSome {total : Nat} {occ occ' : List (Int × List OccEntry)}
    {d : RDev} (h : assignLeafStep total occ d = some occ') (r : Int) :
    (occLookup occ' r).isSome = (occLookup occ r).isSome := by
  unfold assignLeafStep at h
  split at h
  · exact Option.noConfusion h
  · split at h
    · injection h with h'
      subst h'
      rfl
    · rw [occAppend_lookup h r]
      rename_i num hn hgt
      by_cases hr : r = num
      · simp [hr]
      · simp [hr]

theorem assignLeafStep_occMem {total : Nat} {occ occ' : List (Int × List OccEntry)}
    {d : RDev} (h : assignLeafStep total occ d = some occ') {r : Int}
    {e : OccEntry} (hm : occMem occ r e) : occMem occ' r e := by
  obtain ⟨l, hl, he⟩ := hm
  unfold assignLeafStep at h
  split at h
  · exact Option.noConfusion h
  · split at h
    · injection h with h'
      subst h'
      exact ⟨l, hl, he⟩
    · have hlk := occAppend_lookup h r
      rename_i num hn hgt
      by_cases hr : r = num
      · refine ⟨l ++ [(d, 42 - (d.height - 1), d.height)], ?_, by simp [he]⟩
        rw [hlk, if_pos hr, hl]
        rfl
      · exact ⟨l, by rw [hlk, if_neg hr]; exact hl, he⟩

theorem assignLeafStep_leafInv {total : Nat} {occ occ' : List (Int × List OccEntry)}
    {d : RDev} (h : assignLeafStep total occ d = some occ')
    (hp : leafInv occ) : leafInv occ' := by
  unfold assignLeafStep at h
  split at h
  · exact Option.noConfusion h
  · split at h
    · injection h with h'
      subst h'
      exact hp
    · intro r l hl ent hent
      have hlk := occAppend_lookup h r
      rename_i num hn hgt
      by_cases hr : r = num
      · rw [hlk, if_pos hr] at hl
        cases hold : occLookup occ r with
        | none => rw [hold] at hl; cases hl
        | some l0 =>
          rw [hold] at hl
          injection hl with hl'
          subst hl'
          rcases List.mem_append.mp hent with hin | hin
          · exact hp r l0 hold ent hin
          · rcases List.mem_singleton.mp hin with rfl
            refine ⟨?_, by simp, by simp⟩
            rw [hn, hr]
      · rw [hlk, if_neg hr] at hl
        exact hp r l hl ent hent

theorem occLookup_append (xs ys : List (Int × List OccEntry)) (r : Int) :
    occLookup (xs ++ ys) r =
      if (occLookup xs r).isSome then occLookup xs r else occLookup ys r := by
  induction xs with
  | nil => simp [occLookup]
  | cons hd tl ih =>
    obtain ⟨k, l⟩ := hd
    by_cases hk : k = r <;> simp [occLookup, hk, ih]

theorem occLookup_initOccupancy (total : Nat) (r : Int) :
    occLookup (initOccupancy total) r =
      if 1 ≤ r ∧ r ≤ (total : Int) then some [] else none := by
  induction total with
  | zero =>
    rw [if_neg (by omega)]
    simp [initOccupancy, occLookup]
  | succ n ih =>
    have hsplit : initOccupancy (n + 1) =
        initOccupancy n ++ [(Int.ofNat (n + 1), [])] := by
      unfold initOccupancy
      rw [List.range_succ, List.map_append]
      rfl
    rw [hsplit, occLookup_append, ih]
    by_cases h1 : 1 ≤ r ∧ r ≤ (n : Int)
    · simp only [if_pos h1, Option.isSome_some, if_true]
      rw [if_pos (by omega)]
    · simp only [if_neg h1, Option.isSome_none, Bool.false_eq_true, if_false]
      by_cases h2 : Int.ofNat (n + 1) = r
      · simp only [occLookup, if_pos h2]
        rw [if_pos (by rw [Int.ofNat_eq_natCast] at h2; omega)]
      · simp only [occLookup, if_neg h2]
        rw [if_neg (by rw [Int.ofNat_eq_natCast] at h2; omega)]

theorem rackLookup_trySet (m : RackMap) (u u' : Int) (i : UnitInfo) :
    rackLookup (trySet m u i) u' =
      (rackLookup m u').map
        (fun v => if u' = u ∧ v = Option.none then some i else v) := by
  induction m with
  | nil => simp [trySet, rackLookup]
  | cons hd tl ih =>
    obtain ⟨k, v⟩ := hd
    simp only [trySet] at ih ⊢
    simp only [List.map_cons]
    by_cases hcond : k = u ∧ v = Option.none
    · rw [if_pos hcond]
      by_cases hu' : k = u'
      · subst hu'
        simp [rackLookup, hcond.1, hcond.2]
      · simp only [rackLookup, if_neg hu']
        exact ih
    · rw [if_neg hcond]
      by_cases hu' : k = u'
      · subst hu'
        simp [rackLookup, hcond]
      · simp only [rackLookup, if_neg hu']
        exact ih

theorem mem_unitRange {s e u : Int} : u ∈ unitRange s e ↔ s ≤ u ∧ u ≤ e := by
  unfold unitRange
  constructor
  · intro hm
    rcases List.mem_map.mp hm with ⟨i, hi, heq⟩
    rw [List.mem_range] at hi
    rw [Int.ofNat_eq_natCast] at heq
    omega
  · rintro ⟨h1, h2⟩
    refine List.mem_map.mpr ⟨(u - s).toNat, ?_, by rw [Int.ofNat_eq_natCast]; omega⟩
    rw [List.mem_range]
    omega

theorem rackLookup_emptyRack (h : Nat) (u : Int) :
    rackLookup (emptyRack h) u =
      if 1 ≤ u ∧ u ≤ (h : Int) then some Option.none else none := by
  induction h with
  | zero =>
    rw [if_neg (by omega)]
    simp [emptyRack, rackLookup]
  | succ n ih =>
    have hsplit : emptyRack (n + 1) =
        emptyRack n ++ [(Int.ofNat (n + 1), Option.none)] := by
      unfold emptyRack
      rw [List.range_succ, List.map_append]
      rfl
    have happ : ∀ (xs ys : RackMap),
        rackLookup (xs ++ ys) u =
          if (rackLookup xs u).isSome then rackLookup xs u else rackLookup ys u := by
      intro xs ys
      induction xs with
      | nil => simp [rackLookup]
      | cons hd tl ih2 =>
        obtain ⟨k, v⟩ := hd
        by_cases hk : k = u <;> simp [rackLookup, hk, ih2]
    rw [hsplit, happ, ih]
    by_cases h1 : 1 ≤ u ∧ u ≤ (n : Int)
    · simp only [if_pos h1, Option.isSome_some, if_true]
      rw [if_pos (by omega)]
    · simp only [if_neg h1, Option.isSome_none, Bool.false_eq_true, if_false]
      by_cases h2 : Int.ofNat (n + 1) = u
      · simp only [rackLookup, if_pos h2]
        rw [if_pos (by rw [Int.ofNat_eq_natCast] at h2; omega)]
      · simp only [rackLookup, if_neg h2]
        rw [if_neg (by rw [Int.ofNat_eq_natCast] at h2; omega)]

theorem foldl_trySet_persist (d : VDev) (s e : Int) :
    ∀ (L : List Int) (m : RackMap) (u : Int) (v : UnitInfo),
      rackLookup m u = some (some v) →
      rackLookup (L.foldl (fun m u' => trySet m u' (unitInfoAt d s e u')) m) u =
        some (some v) := by
  intro L
  induction L with
  | nil => intro m u v hm; exact hm
  | cons a L ih =>
    intro m u v hm
    simp only [List.foldl_cons]
    apply ih
    rw [rackLookup_trySet, hm]
    simp

theorem foldl_trySet_outside (d : VDev) (s e : Int) :
    ∀ (L : List Int) (m : RackMap) (u : Int), u ∉ L →
      rackLookup (L.foldl (fun m u' => trySet m u' (unitInfoAt d s e u')) m) u =
        rackLookup m u := by
  intro L
  induction L with
  | nil => intro m u _; rfl
  | cons a L ih =>
    intro m u hu
    simp only [List.foldl_cons]
    rw [ih _ u (fun hmem => hu (List.mem_cons_of_mem a hmem)), rackLookup_trySet]
    have hne : u ≠ a := fun heq => hu (heq ▸ List.mem_cons_self a L)
    cases hm : rackLookup m u with
    | none => rfl
    | some v => simp [hne]

theorem foldl_trySet_fill (d : VDev) (s e : Int) :
    ∀ (L : List Int) (m : RackMap) (u : Int), u ∈ L →
      rackLookup m u = some Option.none →
      rackLookup (L.foldl (fun m u' => trySet m u' (unitInfoAt d s e u')) m) u =
        some (some (unitInfoAt d s e u)) := by
  intro L
  induction L with
  | nil => intro m u hu _; exact absurd hu (List.not_mem_nil u)
  | cons a L ih =>
    intro m u hu hm
    simp only [List.foldl_cons]
    by_cases hua : u = a
    · subst hua
      apply foldl_trySet_persist
      rw [rackLookup_trySet, hm]
      simp
    · refine ih _ u ((List.mem_cons.mp hu).resolve_left hua) ?_
      rw [rackLookup_trySet, hm]
      simp [hua]

theorem foldl_trySet_occupied (d : VDev) (s e : Int) :
    ∀ (L : List Int) (m : RackMap) (u : Int) (iv : UnitInfo),
      rackLookup (L.foldl (fun m u' => trySet m u' (unitInfoAt d s e u')) m) u =
        some (some iv) →
      rackLookup m u = some (some iv) ∨ (u ∈ L ∧ iv = unitInfoAt d s e u) := by
  intro L
  induction L with
  | nil => intro m u iv hocc; exact Or.inl hocc
  | cons a L ih =>
    intro m u iv hocc
    simp only [List.foldl_cons] at hocc
    rcases ih _ u iv hocc with hin | ⟨huL, hiv⟩
    · rw [rackLookup_trySet] at hin
      cases hm : rackLookup m u with
      | none => rw [hm] at hin; exact Option.noConfusion hin
      | some v =>
        rw [hm] at hin
        simp only [Option.map] at hin
        injection hin with hin'
        by_cases hcond : u = a ∧ v = Option.none
        · obtain ⟨hua, hv⟩ := hcond
          subst hua
          subst hv
          rw [if_pos ⟨rfl, rfl⟩] at hin'
          injection hin' with hiv
          exact Or.inr ⟨List.mem_cons_self u L, hiv.symm⟩
        · rw [if_neg hcond] at hin'
          subst hin'
          exact Or.inl rfl
    · exact Or.inr ⟨List.mem_cons_of_mem a huL, hiv⟩

theorem placeDevice_persist (h : Nat) (m : RackMap) (d : VDev) (u : Int)
    (v : UnitInfo) (hm : rackLookup m u = some (some v)) :
    rackLookup (placeDevice h m d) u = some (some v) := by
  unfold placeDevice
  split
  · exact hm
  · split
    · exact hm
    · dsimp only
      split
      · exact hm
      · unfold placeUnits
        exact foldl_trySet_persist d _ _ _ m u v hm

theorem placeDevice_isSome (h : Nat) (m : RackMap) (d : VDev) (u : Int) :
    (rackLookup (placeDevice h m d) u).isSome = (rackLookup m u).isSome := by
  unfold placeDevice
  split
  · rfl
  · split
    · rfl
    · dsimp only
      split
      · rfl
      · unfold placeUnits
        generalize unitRange _ _ = L
        induction L generalizing m with
        | nil => rfl
        | cons a L ihL =>
          simp only [List.foldl_cons]
          rw [ihL]
          rw [rackLookup_trySet]
          cases rackLookup m u <;> rfl

theorem placeDevice_not_covered (h : Nat) (m : RackMap) (d : VDev) (u : Int)
    (hnc : ¬covers h d u) :
    rackLookup (placeDevice h m d) u = rackLookup m u := by
  unfold placeDevice
  split
  · rfl
  · rename_i p hp
    split
    · rfl
    · dsimp only
      split
      · rfl
      · rename_i hpos hout
        unfold placeUnits
        apply foldl_trySet_outside
        intro hmem
        exact hnc ⟨p, hp, by omega, hout, hmem⟩

theorem placeDevice_covered_fill (h : Nat) (m : RackMap) (d : VDev) (u : Int)
    (p : Int) (hp : d.position = some p) (hpos : 0 < p)
    (hout : ¬(p > (h : Int) ∨ p + effHeight d - 1 < 1))
    (hu : u ∈ unitRange (max 1 p) (min (h : Int) (p + effHeight d - 1)))
    (hm : rackLookup m u = some Option.none) :
    rackLookup (placeDevice h m d) u =
      some (some (unitInfoAt d (max 1 p)
        (min (h : Int) (p + effHeight d - 1)) u)) := by
  simp only [placeDevice, hp]
  rw [if_neg (by omega), if_neg hout]
  unfold placeUnits
  exact foldl_trySet_fill d _ _ _ m u hu hm

theorem placeDevice_occupied (h : Nat) (m : RackMap) (d : VDev) (u : Int)
    (iv : UnitInfo) (hocc : rackLookup (placeDevice h m d) u = some (some iv)) :
    rackLookup m u = some (some iv) ∨
    ∃ p, d.position = some p ∧ 0 < p ∧
      ¬(p > (h : Int) ∨ p + effHeight d - 1 < 1) ∧
      u ∈ unitRange (max 1 p) (min (h : Int) (p + effHeight d - 1)) ∧
      iv = unitInfoAt d (max 1 p) (min (h : Int) (p + effHeight d - 1)) u := by
  unfold placeDevice at hocc
  split at hocc
  · exact Or.inl hocc
  · rename_i p hp
    split at hocc
    · exact Or.inl hocc
    · dsimp only at hocc
      split at hocc
      · exact Or.inl hocc
      · rename_i hpos hout
        unfold placeUnits at hocc
        rcases foldl_trySet_occupied d _ _ _ m u iv hocc with hin | ⟨hmem, hiv⟩
        · exact Or.inl hin
        · exact Or.inr ⟨p, hp, by omega, hout, hmem, hiv⟩

theorem fold_place_persist (h : Nat) :
    ∀ (ds : List VDev) (m : RackMap) (u : Int) (v : UnitInfo),
      rackLookup m u = some (some v) →
      rackLookup (ds.foldl (placeDevice h) m) u = some (some v) := by
  intro ds
  induction ds with
  | nil => intro m u v hm; exact hm
  | cons d ds ih =>
    intro m u v hm
    simp only [List.foldl_cons]
    exact ih _ u v (placeDevice_persist h m d u v hm)

theorem fold_place_isSome (h : Nat) :
    ∀ (ds : List VDev) (m : RackMap) (u : Int),
      (rackLookup (ds.foldl (placeDevice h) m) u).isSome =
        (rackLookup m u).isSome := by
  intro ds
  induction ds with
  | nil => intro m u; rfl
  | cons d ds ih =>
    intro m u
    simp only [List.foldl_cons]
    rw [ih, placeDevice_isSome]

theorem fold_place_occupied (h : Nat) :
    ∀ (ds : List VDev) (m : RackMap) (u : Int) (iv : UnitInfo),
      rackLookup (ds.foldl (placeDevice h) m) u = some (some iv) →
      rackLookup m u = some (some iv) ∨
      ∃ d ∈ ds, ∃ p, d.position = some p ∧ 0 < p ∧
        ¬(p > (h : Int) ∨ p + effHeight d - 1 < 1) ∧
        u ∈ unitRange (max 1 p) (min (h : Int) (p + effHeight d - 1)) ∧
        iv = unitInfoAt d (max 1 p) (min (h : Int) (p + effHeight d - 1)) u := by
  intro ds
  induction ds with
  | nil => intro m u iv hocc; exact Or.inl hocc
  | cons d ds ih =>
    intro m u iv hocc
    simp only [List.foldl_cons] at hocc
    rcases ih _ u iv hocc with hin | ⟨d', hd', hrest⟩
    · rcases placeDevice_occupied h m d u iv hin with hm | ⟨p, hrest⟩
      · exact Or.inl hm
      · exact Or.inr ⟨d, List.mem_cons_self d ds, p, hrest⟩
    · exact Or.inr ⟨d', List.mem_cons_of_mem d hd', hrest⟩

theorem fold_place_fill_min (h : Nat) :
    ∀ (ds : List VDev) (m : RackMap) (u : Int),
      List.Pairwise (fun a b => sortKey a ≤ sortKey b) ds →
      rackLookup m u = some Option.none →
      (∃ d ∈ ds, covers h d u) →
      ∃ iv, rackLookup (ds.foldl (placeDevice h) m) u = some (some iv) ∧
        ∀ d ∈ ds, covers h d u → sortKey iv.device ≤ sortKey d := by
  intro ds
  induction ds with
  | nil =>
    intro m u _ _ hex
    rcases hex with ⟨d, hd, -⟩
    exact absurd hd (List.not_mem_nil d)
  | cons d0 ds ih =>
    intro m u hpw hm hex
    rcases List.pairwise_cons.mp hpw with ⟨hd0, hpw'⟩
    simp only [List.foldl_cons]
    by_cases hc0 : covers h d0 u
    · rcases hc0 with ⟨p, hp, hpos, hout, hin⟩
      have hfill := placeDevice_covered_fill h m d0 u p hp hpos hout hin hm
      refine ⟨unitInfoAt d0 (max 1 p) (min (h : Int) (p + effHeight d0 - 1)) u,
        fold_place_persist h ds _ u _ hfill, ?_⟩
      intro d hd hcov
      have hdev : (unitInfoAt d0 (max 1 p)
          (min (h : Int) (p + effHeight d0 - 1)) u).device = d0 := rfl
      rw [hdev]
      rcases List.mem_cons.mp hd with rfl | hd'
      · exact le_refl _
      · exact hd0 d hd'
    · have hm' : rackLookup (placeDevice h m d0) u = rackLookup m u :=
        placeDevice_not_covered h m d0 u hc0
      have hex' : ∃ d ∈ ds, covers h d u := by
        rcases hex with ⟨d, hd, hcov⟩
        rcases List.mem_cons.mp hd with rfl | hd'
        · exact absurd hcov hc0
        · exact ⟨d, hd', hcov⟩
      rcases ih (placeDevice h m d0) u hpw' (by rw [hm']; exact hm) hex' with
        ⟨iv, hiv, hmin⟩
      refine ⟨iv, hiv, ?_⟩
      intro d hd hcov
      rcases List.mem_cons.mp hd with rfl | hd'
      · exact absurd hcov hc0
      · exact hmin d hd' hcov

theorem insertByKey_mem (x : VDev) :
    ∀ (l : List VDev) (d : VDev), d ∈ insertByKey x l ↔ d = x ∨ d ∈ l := by
  intro l
  induction l with
  | nil => intro d; simp [insertByKey]
  | cons y ys ih =>
    intro d
    unfold insertByKey
    split
    · simp [List.mem_cons]
    · simp only [List.mem_cons, ih]
      tauto

theorem sortByPos_mem : ∀ (l : List VDev) (d : VDev), d ∈ sortByPos l ↔ d ∈ l := by
  intro l
  induction l with
  | nil => intro d; simp [sortByPos]
  | cons x xs ih =>
    intro d
    unfold sortByPos
    rw [insertByKey_mem]
    simp [ih]

theorem insertByKey_pairwise (x : VDev) :
    ∀ (l : List VDev),
      List.Pairwise (fun a b => sortKey a ≤ sortKey b) l →
      List.Pairwise (fun a b => sortKey a ≤ sortKey b) (insertByKey x l) := by
  intro l
  induction l with
  | nil => intro _; simp [insertByKey]
  | cons y ys ih =>
    intro hp
    rcases List.pairwise_cons.mp hp with ⟨hy, hys⟩
    unfold insertByKey
    split
    · rename_i hxy
      refine List.pairwise_cons.mpr ⟨?_, hp⟩
      intro b hb
      rcases List.mem_cons.mp hb with rfl | hb'
      · exact hxy
      · exact le_trans hxy (hy b hb')
    · rename_i hxy
      refine List.pairwise_cons.mpr ⟨?_, ih hys⟩
      intro b hb
      rcases (insertByKey_mem x ys b).mp hb with rfl | hb'
      · omega
      · exact hy b hb'

theorem sortByPos_pairwise :
    ∀ (l : List VDev),
      List.Pairwise (fun a b => sortKey a ≤ sortKey b) (sortByPos l) := by
  intro l
  induction l with
  | nil => simp [sortByPos]
  | cons x xs ih =>
    unfold sortByPos
    exact insertByKey_pairwise x (sortByPos xs) ih

/-- C10: for every rack_height ≥ 0 and every device list,
`create_rack_unit_map` returns a map whose keys are exactly the units
`1..rack_height`; every occupied unit belongs to a device with a present
positive position, and lies within the device's span clamped to the rack
bounds (so a device with missing or non-positive position occupies no
unit); an occupied unit is never overwritten by a later device; and a
contested unit is kept by the device with the smallest sort position among
the valid devices covering it — the device assigned first. -/
theorem c10_rack_unit_map (h : Nat) (devs : List VDev) :
    (∀ u : Int, (rackLookup (createRackUnitMap h devs) u).isSome = true ↔
      (1 ≤ u ∧ u ≤ (h : Int))) ∧
    (∀ u iv, rackLookup (createRackUnitMap h devs) u = some (some iv) →
      ∃ p, iv.device.position = some p ∧ 0 < p ∧
        max 1 p ≤ u ∧ u ≤ min (h : Int) (p + effHeight iv.device - 1)) ∧
    (∀ m d u v, rackLookup m u = some (some v) →
      rackLookup (placeDevice h m d) u = some (some v)) ∧
    (∀ u, rackLookup (emptyRack h) u = some Option.none →
      (∃ d ∈ devs, covers h d u) →
      ∃ iv, rackLookup (createRackUnitMap h devs) u = some (some iv) ∧
        ∀ d ∈ devs, covers h d u → sortKey iv.device ≤ sortKey d) := by
  refine ⟨?_, ?_, fun m d u v hm => placeDevice_persist h m d u v hm, ?_⟩
  · intro u
    unfold createRackUnitMap
    rw [fold_place_isSome, rackLookup_emptyRack]
    by_cases hc : 1 ≤ u ∧ u ≤ (h : Int)
    · simp [hc]
    · simp [hc]
  · intro u iv hocc
    unfold createRackUnitMap at hocc
    rcases fold_place_occupied h _ _ u iv hocc with
      hbase | ⟨d, hd, p, hp, hpos, hout, hu, hiv⟩
    · rw [rackLookup_emptyRack] at hbase
      split at hbase
      · exact Option.noConfusion (Option.some.inj hbase)
      · exact Option.noConfusion hbase
    · subst hiv
      exact ⟨p, hp, hpos, (mem_unitRange.mp hu).1, (mem_unitRange.mp hu).2⟩
  · intro u hbase hex
    unfold createRackUnitMap
    have hex' : ∃ d ∈ sortByPos devs, covers h d u := by
      rcases hex with ⟨d, hd, hcov⟩
      exact ⟨d, (sortByPos_mem devs d).mpr hd, hcov⟩
    rcases fold_place_fill_min h (sortByPos devs) (emptyRack h) u
      (sortByPos_pairwise devs) hbase hex' with ⟨iv, hiv, hmin⟩
    exact ⟨iv, hiv, fun d hd hcov => hmin d ((sortByPos_mem devs d).mpr hd) hcov⟩

/-- C10 witness: a 3-unit rack with two overlapping 2U devices. -/
theorem c10_witness :
    (rackLookup (createRackUnitMap 3
        [⟨"B", some 2, some 2⟩, ⟨"A", some 1, some 2⟩]) 2).isSome = true ∧
    rackLookup (placeDevice 3
        (createRackUnitMap 3 [⟨"A", some 1, some 2⟩]) ⟨"B", some 2, some 2⟩) 1 =
      some (some (unitInfoAt ⟨"A", some 1, some 2⟩ 1 2 1)) := by
  refine ⟨?_, ?_⟩
  · exact ((c10_rack_unit_map 3
      [⟨"B", some 2, some 2⟩, ⟨"A", some 1, some 2⟩]).1 2).mpr
      ⟨by decide, by decide⟩
  · exact (c10_rack_unit_map 3
      [⟨"B", some 2, some 2⟩, ⟨"A", some 1, some 2⟩]).2.2.1
      (createRackUnitMap 3 [⟨"A", some 1, some 2⟩]) ⟨"B", some 2, some 2⟩ 1
      (unitInfoAt ⟨"A", some 1, some 2⟩ 1 2 1) (by decide)

theorem popRow_conns_spec :
    ∀ (dests : List (String × List String)) (sname : String) (sifs : List String),
      (∀ c ∈ (popRow sname sifs dests).1, c.source = sname) ∧
      List.Sublist ((popRow sname sifs dests).1.map (fun c => c.target))
        (dests.map Prod.fst) ∧
      (popRow sname sifs dests).2.2.map Prod.fst = dests.map Prod.fst := by
  intro dests
  induction dests with
  | nil =>
    intro sname sifs
    refine ⟨?_, ?_, ?_⟩ <;> simp [popRow]
  | cons hd drest ih =>
    obtain ⟨dname, difs⟩ := hd
    intro sname sifs
    cases sifs with
    | nil =>
      refine ⟨?_, ?_, ?_⟩
      · intro c hc
        simp only [popRow] at hc
        exact (ih sname []).1 c hc
      · simp only [popRow, List.map_cons]
        exact ((ih sname []).2.1).cons dname
      · simp only [popRow, List.map_cons]
        rw [(ih sname []).2.2]
    | cons s0 stl =>
      cases difs with
      | nil =>
        refine ⟨?_, ?_, ?_⟩
        · intro c hc
          simp only [popRow] at hc
          exact (ih sname (s0 :: stl)).1 c hc
        · simp only [popRow, List.map_cons]
          exact ((ih sname (s0 :: stl)).2.1).cons dname
        · simp only [popRow, List.map_cons]
          rw [(ih sname (s0 :: stl)).2.2]
      | cons d0 dtl =>
        refine ⟨?_, ?_, ?_⟩
        · intro c hc
          simp only [popRow, List.mem_cons] at hc
          rcases hc with rfl | hc'
          · rfl
          · exact (ih sname stl).1 c hc'
        · simp only [popRow, List.map_cons]
          exact ((ih sname stl).2.1).cons₂ dname
        · simp only [popRow, List.map_cons]
          rw [(ih sname stl).2.2]

theorem popMesh_conns_source :
    ∀ (sources dests : List (String × List String)) (c : Conn),
      c ∈ (popMesh sources dests).1 → c.source ∈ sources.map Prod.fst := by
  intro sources
  induction sources with
  | nil =>
    intro dests c hc
    simp [popMesh] at hc
  | cons hd srest ih =>
    obtain ⟨sname, sifs⟩ := hd
    intro dests c hc
    simp only [popMesh, List.mem_append] at hc
    simp only [List.map_cons, List.mem_cons]
    rcases hc with hin | hin
    · exact Or.inl ((popRow_conns_spec dests sname sifs).1 c hin)
    · exact Or.inr (ih (popRow sname sifs dests).2.2 c hin)

theorem popMesh_pairs_nodup :
    ∀ (sources dests : List (String × List String)),
      (sources.map Prod.fst).Nodup → (dests.map Prod.fst).Nodup →
      ((popMesh sources dests).1.map (fun c => (c.source, c.target))).Nodup := by
  intro sources
  induction sources with
  | nil =>
    intro dests _ _
    simp [popMesh]
  | cons hd srest ih =>
    obtain ⟨sname, sifs⟩ := hd
    intro dests hs hd2
    simp only [List.map_cons, List.nodup_cons] at hs
    simp only [popMesh, List.map_append]
    rw [List.nodup_append]
    refine ⟨?_, ?_, ?_⟩
    · have hsub := (popRow_conns_spec dests sname sifs).2.1
      have hnd : ((popRow sname sifs dests).1.map (fun c => c.target)).Nodup :=
        hd2.sublist hsub
      refine List.Nodup.of_map Prod.snd ?_
      rw [List.map_map]
      exact hnd
    · refine ih (popRow sname sifs dests).2.2 hs.2 ?_
      rw [(popRow_conns_spec dests sname sifs).2.2]
      exact hd2
    · intro p hp hq
      rcases List.mem_map.mp hp with ⟨c, hc, rfl⟩
      rcases List.mem_map.mp hq with ⟨c', hc', heq⟩
      have h1 : c.source = sname := (popRow_conns_spec dests sname sifs).1 c hc
      have h2 : c'.source ∈ srest.map Prod.fst :=
        popMesh_conns_source srest (popRow sname sifs dests).2.2 c' hc'
      apply hs.1
      rw [← h1, show c.source = c'.source from congrArg Prod.fst heq.symm]
      exact h2

/-- C2: `create_fabric_peering` generates a full mesh.  A (source,
destination) pair whose two interface lists are still nonempty when the
pair is considered yields exactly one connection consuming the head of each
sorted list; an exhausted source or destination list yields no connection
and consumes nothing; with distinct device names no (spine, leaf) pair is
connected twice; and the emitted list is the spine×leaf mesh over the
spines' sorted "leaf"-role lists and the leafs' sorted "uplink"-role lists
followed by the spine×border-leaf mesh over the spines' and border leafs'
sorted "uplink"-role lists. -/
theorem c2_fabric_full_mesh :
    (∀ sname s0 stl dname d0 dtl drest,
      popRow sname (s0 :: stl) ((dname, d0 :: dtl) :: drest) =
        (⟨sname, dname, s0, d0⟩ :: (popRow sname stl drest).1,
          (popRow sname stl drest).2.1,
          (dname, dtl) :: (popRow sname stl drest).2.2)) ∧
    (∀ sname dests, popRow sname [] dests = ([], [], dests)) ∧
    (∀ sname sifs dname drest,
      popRow sname sifs ((dname, []) :: drest) =
        ((popRow sname sifs drest).1, (popRow sname sifs drest).2.1,
          (dname, []) :: (popRow sname sifs drest).2.2)) ∧
    (∀ sources dests, (sources.map Prod.fst).Nodup →
      (dests.map Prod.fst).Nodup →
      ((popMesh sources dests).1.map (fun c => (c.source, c.target))).Nodup) ∧
    (∀ sort interfaces,
      fabricPeeringConnections sort interfaces =
        (popMesh
          ((interfaces.filter (fun p => containsSub p.1 "spine")).map
            (fun p => (p.1, roleIfaces sort "leaf" p.2)))
          ((interfaces.filter
              (fun p => containsSub p.1 "leaf" && !containsSub p.1 "border")).map
            (fun p => (p.1, roleIfaces sort "uplink" p.2)))).1 ++
        (popMesh
          ((interfaces.filter (fun p => containsSub p.1 "spine")).map
            (fun p => (p.1, roleIfaces sort "uplink" p.2)))
          ((interfaces.filter (fun p => containsSub p.1 "border_leaf")).map
            (fun p => (p.1, roleIfaces sort "uplink" p.2)))).1) ∧
    (fabricPeeringConnections id
        [("dc-spine-01", [⟨"E1", "leaf"⟩, ⟨"E2", "leaf"⟩, ⟨"U1", "uplink"⟩]),
         ("dc-spine-02", [⟨"E1", "leaf"⟩, ⟨"E2", "leaf"⟩, ⟨"U1", "uplink"⟩]),
         ("dc-leaf-01", [⟨"U1", "uplink"⟩]),
         ("dc-leaf-02", [⟨"U1", "uplink"⟩, ⟨"U2", "uplink"⟩]),
         ("dc-border_leaf-01", [⟨"U1", "uplink"⟩])] =
      [⟨"dc-spine-01", "dc-leaf-01", "E1", "U1"⟩,
       ⟨"dc-spine-01", "dc-leaf-02", "E2", "U1"⟩,
       ⟨"dc-spine-02", "dc-leaf-02", "E1", "U2"⟩,
       ⟨"dc-spine-01", "dc-border_leaf-01", "U1", "U1"⟩]) := by
  refine ⟨?_, ?_, ?_, popMesh_pairs_nodup, fun sort interfaces => rfl, ?_⟩
  · intro sname s0 stl dname d0 dtl drest
    simp [popRow]
  · intro sname dests
    induction dests with
    | nil => simp [popRow]
    | cons hd drest ih =>
      obtain ⟨dname, difs⟩ := hd
      simp [popRow, ih]
  · intro sname sifs dname drest
    cases sifs with
    | nil => simp [popRow]
    | cons s0 stl => simp [popRow]
  · rfl

/-- C2 witness: a one-spine one-leaf mesh has no duplicated (source, target)
pair. -/
theorem c2_witness :
    ((popMesh [("dc-spine-01", ["E1"])] [("dc-leaf-01", ["U1"])]).1.map
      (fun c => (c.source, c.target))).Nodup := by
  obtain ⟨-, -, -, h4, -, -⟩ := c2_fabric_full_mesh
  exact h4 [("dc-spine-01", ["E1"])] [("dc-leaf-01", ["U1"])]
    (by decide) (by decide)

theorem popRowParity_conns_spec :
    ∀ (dests : List (String × List String)) (sname : String) (sifs : List String)
      (r : List Conn × List String × List (String × List String)),
      popRowParity sname sifs dests = .ok r →
      ∀ c ∈ r.1, c.source = sname ∧ ∃ sn dn, lastDashNum c.source = some sn ∧
        lastDashNum c.target = some dn ∧ dn % 2 = sn % 2 := by
  intro dests
  induction dests with
  | nil =>
    intro sname sifs r h c hc
    simp only [popRowParity] at h
    injection h with h'
    subst h'
    exact absurd hc (List.not_mem_nil c)
  | cons hd drest ih =>
    obtain ⟨dname, difs⟩ := hd
    intro sname sifs r h c hc
    cases sifs with
    | nil =>
      simp only [popRowParity] at h
      cases hrec : popRowParity sname [] drest with
      | ok r0 =>
        simp only [hrec] at h
        injection h with h'
        subst h'
        exact ih sname [] r0 hrec c hc
      | error e => simp only [hrec] at h ; exact Except.noConfusion h
    | cons s0 stl =>
      cases difs with
      | nil =>
        simp only [popRowParity] at h
        cases hrec : popRowParity sname (s0 :: stl) drest with
        | ok r0 =>
          simp only [hrec] at h
          injection h with h'
          subst h'
          exact ih sname (s0 :: stl) r0 hrec c hc
        | error e => simp only [hrec] at h ; exact Except.noConfusion h
      | cons d0 dtl =>
        cases hdn : lastDashNum dname with
        | none => simp only [popRowParity, hdn] at h ; exact Except.noConfusion h
        | some dn =>
          cases hsn : lastDashNum sname with
          | none => simp only [popRowParity, hdn, hsn] at h ; exact Except.noConfusion h
          | some sn =>
            by_cases hpar : dn % 2 = sn % 2
            · simp only [popRowParity, hdn, hsn] at h
              rw [if_pos (by simpa using hpar)] at h
              cases hrec : popRowParity sname stl drest with
              | ok r0 =>
                simp only [hrec] at h
                injection h with h'
                subst h'
                rcases List.mem_cons.mp hc with rfl | hc'
                · exact ⟨rfl, sn, dn, hsn, hdn, hpar⟩
                · exact ih sname stl r0 hrec c hc'
              | error e => simp only [hrec] at h ; exact Except.noConfusion h
            · simp only [popRowParity, hdn, hsn] at h
              rw [if_neg (by simpa using hpar)] at h
              cases hrec : popRowParity sname (s0 :: stl) drest with
              | ok r0 =>
                simp only [hrec] at h
                injection h with h'
                subst h'
                exact ih sname (s0 :: stl) r0 hrec c hc
              | error e => simp only [hrec] at h ; exact Except.noConfusion h

theorem popMeshParity_conns_spec :
    ∀ (sources dests : List (String × List String)) (conns : List Conn)
      (dests' : List (String × List String)),
      popMeshParity sources dests = .ok (conns, dests') →
      ∀ c ∈ conns, ∃ sn dn, lastDashNum c.source = some sn ∧
        lastDashNum c.target = some dn ∧ dn % 2 = sn % 2 := by
  intro sources
  induction sources with
  | nil =>
    intro dests conns dests' h c hc
    simp only [popMeshParity] at h
    injection h with h'
    rw [show conns = ([] : List Conn) from (congrArg Prod.fst h').symm] at hc
    exact absurd hc (List.not_mem_nil c)
  | cons hd srest ih =>
    obtain ⟨sname, sifs⟩ := hd
    intro dests conns dests' h c hc
    cases hrow : popRowParity sname sifs dests with
    | error e => simp only [popMeshParity, hrow] at h ; exact Except.noConfusion h
    | ok r =>
      simp only [popMeshParity, hrow] at h
      cases hrec : popMeshParity srest r.2.2 with
      | error e => simp only [hrec] at h ; exact Except.noConfusion h
      | ok r' =>
        simp only [hrec] at h
        injection h with h'
        rw [show conns = r.1 ++ r'.1 from (congrArg Prod.fst h').symm] at hc
        rcases List.mem_append.mp hc with hin | hin
        · exact (popRowParity_conns_spec dests sname sifs r hrow c hin).2
        · exact ih r.2.2 r'.1 r'.2 (by rw [hrec]) c hin

/-- C4: `create_oob_connections` pairs a source device (name containing
"oob" for management, "console" for console) with a destination device
exactly when, at the time the pair is considered, both devices still have a
remaining interface of the requested role and the trailing numbers of the
two device names have equal parity; each emitted connection consumes the
first element of each device's sorted interface list, and every emitted
connection joins devices of equal parity. -/
theorem c4_oob_parity_connections :
    (∀ sname s0 stl dname d0 dtl drest dn sn,
      lastDashNum dname = some dn → lastDashNum sname = some sn →
      dn % 2 = sn % 2 →
      popRowParity sname (s0 :: stl) ((dname, d0 :: dtl) :: drest) =
        (popRowParity sname stl drest).map
          (fun r => (⟨sname, dname, s0, d0⟩ :: r.1, r.2.1, (dname, dtl) :: r.2.2))) ∧
    (∀ sname s0 stl dname d0 dtl drest dn sn,
      lastDashNum dname = some dn → lastDashNum sname = some sn →
      ¬dn % 2 = sn % 2 →
      popRowParity sname (s0 :: stl) ((dname, d0 :: dtl) :: drest) =
        (popRowParity sname (s0 :: stl) drest).map
          (fun r => (r.1, r.2.1, (dname, d0 :: dtl) :: r.2.2))) ∧
    (∀ sname dests, popRowParity sname [] dests = .ok ([], [], dests)) ∧
    (∀ sname sifs dname drest,
      popRowParity sname sifs ((dname, []) :: drest) =
        (popRowParity sname sifs drest).map
          (fun r => (r.1, r.2.1, (dname, []) :: r.2.2))) ∧
    (∀ sources dests conns dests',
      popMeshParity sources dests = .ok (conns, dests') →
      ∀ c ∈ conns, ∃ sn dn, lastDashNum c.source = some sn ∧
        lastDashNum c.target = some dn ∧ dn % 2 = sn % 2) ∧
    (oobConnections id "management"
        [("dc-oob-01", [⟨"m1", "management"⟩, ⟨"m2", "management"⟩]),
         ("dc-leaf-01", [⟨"e1", "management"⟩]),
         ("dc-leaf-02", [⟨"e2", "management"⟩])] =
      .ok [⟨"dc-oob-01", "dc-leaf-01", "m1", "e1"⟩]) ∧
    (oobConnections id "console"
        [("dc-console-01", [⟨"c1", "console"⟩, ⟨"c2", "console"⟩]),
         ("dc-leaf-01", [⟨"s1", "console"⟩]),
         ("dc-leaf-02", [⟨"s1", "console"⟩]),
         ("dc-leaf-03", [⟨"s1", "console"⟩])] =
      .ok [⟨"dc-console-01", "dc-leaf-01", "c1", "s1"⟩,
           ⟨"dc-console-01", "dc-leaf-03", "c2", "s1"⟩]) := by
  refine ⟨?_, ?_, ?_, ?_, popMeshParity_conns_spec, ?_, ?_⟩
  · intro sname s0 stl dname d0 dtl drest dn sn hdn hsn hpar
    cases h : popRowParity sname stl drest with
    | ok r => simp [popRowParity, hdn, hsn, hpar, h, Except.map]
    | error e => simp [popRowParity, hdn, hsn, hpar, h, Except.map]
  · intro sname s0 stl dname d0 dtl drest dn sn hdn hsn hpar
    cases h : popRowParity sname (s0 :: stl) drest with
    | ok r => simp [popRowParity, hdn, hsn, hpar, h, Except.map]
    | error e => simp [popRowParity, hdn, hsn, hpar, h, Except.map]
  · intro sname dests
    induction dests with
    | nil => simp [popRowParity]
    | cons hd drest ih =>
      obtain ⟨dname, difs⟩ := hd
      simp [popRowParity, ih]
  · intro sname sifs dname drest
    cases sifs with
    | nil =>
      cases h : popRowParity sname [] drest with
      | ok r => simp [popRowParity, h, Except.map]
      | error e => simp [popRowParity, h, Except.map]
    | cons s0 stl =>
      cases h : popRowParity sname (s0 :: stl) drest with
      | ok r => simp [popRowParity, h, Except.map]
      | error e => simp [popRowParity, h, Except.map]
  · rfl
  · rfl

/-- C4 witness: concrete instances of the conditional clauses. -/
theorem c4_witness :
    popRowParity "dc-oob-01" ["m1", "m2"] [("dc-leaf-01", ["e1"])] =
      .ok ([⟨"dc-oob-01", "dc-leaf-01", "m1", "e1"⟩], ["m2"], [("dc-leaf-01", [])]) ∧
    popRowParity "dc-oob-01" ["m1"] [("dc-leaf-02", ["e2"])] =
      .ok ([], ["m1"], [("dc-leaf-02", ["e2"])]) ∧
    popRowParity "dc-oob-01" [] [("dc-leaf-01", ["e1"])] =
      .ok ([], [], [("dc-leaf-01", ["e1"])]) ∧
    (∃ sn dn, lastDashNum "dc-oob-01" = some sn ∧
      lastDashNum "dc-leaf-01" = some dn ∧ dn % 2 = sn % 2) := by
  obtain ⟨h1, h2, h3, -, h5, -, -⟩ := c4_oob_parity_connections
  refine ⟨?_, ?_, ?_, ?_⟩
  · rw [h1 "dc-oob-01" "m1" ["m2"] "dc-leaf-01" "e1" [] [] 1 1 (by decide)
      (by decide) rfl]
    rfl
  · rw [h2 "dc-oob-01" "m1" [] "dc-leaf-02" "e2" [] [] 2 1 (by decide)
      (by decide) (by decide)]
    rfl
  · exact h3 "dc-oob-01" [("dc-leaf-01", ["e1"])]
  · have := h5 [("dc-oob-01", ["m1"])] [("dc-leaf-01", ["e1"])]
      [⟨"dc-oob-01", "dc-leaf-01", "m1", "e1"⟩] [("dc-leaf-01", [])]
      (by rfl) ⟨"dc-oob-01", "dc-leaf-01", "m1", "e1"⟩ (by simp)
    simpa using this

/-- C3: in `assign_devices_to_racks` the total number of racks equals the
number of leaf devices; every leaf device whose trailing sequence number is
between 1 and that rack count is assigned to the rack whose number equals
that sequence number, at top-of-rack position `U = 42 - (height - 1)`; and
every recorded leaf assignment is of exactly this shape, so a leaf whose
sequence number exceeds the rack count receives no rack assignment. -/
theorem c3_leaf_rack_assignment (devs : List RDev)
    (occ : List (Int × List OccEntry)) (hocc : assignLeafs devs = some occ) :
    totalRacks devs = (leafDevices devs).length ∧
    (∀ d num, d ∈ leafDevices devs → getDeviceNumber d.name = some num →
      1 ≤ num → num ≤ (totalRacks devs : Int) →
      occMem occ num (d, 42 - (d.height - 1), d.height)) ∧
    (∀ r l, occLookup occ r = some l → ∀ ent ∈ l,
      getDeviceNumber ent.1.name = some r ∧ ent.2.1 = 42 - (ent.1.height - 1) ∧
      1 ≤ r ∧ r ≤ (totalRacks devs : Int)) := by
  have hpresFold : ∀ (ds : List RDev) (o o' : List (Int × List OccEntry)),
      ds.foldlM (assignLeafStep (totalRacks devs)) o = some o' →
      (∀ r : Int, (occLookup o r).isSome =
        (occLookup (initOccupancy (totalRacks devs)) r).isSome) →
      (∀ r : Int, (occLookup o' r).isSome =
        (occLookup (initOccupancy (totalRacks devs)) r).isSome) := by
    intro ds o o' hf hP
    exact foldlM_step_inv (assignLeafStep (totalRacks devs))
      (fun o => ∀ r : Int, (occLookup o r).isSome =
        (occLookup (initOccupancy (totalRacks devs)) r).isSome)
      (fun s a s' hs hp r => by rw [assignLeafStep_isSome hs r]; exact hp r)
      ds o o' hf hP
  refine ⟨rfl, ?_, ?_⟩
  · intro d num hd hnum h1 h2
    obtain ⟨l1, l2, hsplit⟩ := List.append_of_mem hd
    unfold assignLeafs at hocc
    rw [hsplit, List.foldlM_append] at hocc
    rcases Option.bind_eq_some.mp hocc with ⟨occ1, hocc1, hocc2⟩
    rw [List.foldlM_cons] at hocc2
    rcases Option.bind_eq_some.mp hocc2 with ⟨occ2, hstep, hocc3⟩
    have hsome1 : (occLookup occ1 num).isSome = true := by
      rw [hpresFold l1 _ occ1 hocc1 (fun r => rfl) num, occLookup_initOccupancy,
        if_pos ⟨h1, h2⟩]
      rfl
    have hstep' : occAppend occ1 num (d, 42 - (d.height - 1), d.height) =
        some occ2 := by
      unfold assignLeafStep at hstep
      split at hstep
      · exact Option.noConfusion hstep
      · rename_i num' hn'
        rw [hnum] at hn'
        injection hn' with hnn
        subst hnn
        rw [if_neg (by omega)] at hstep
        exact hstep
    have hmem2 : occMem occ2 num (d, 42 - (d.height - 1), d.height) := by
      have hlk := occAppend_lookup hstep' num
      rw [if_pos rfl] at hlk
      cases hl0 : occLookup occ1 num with
      | none => rw [hl0] at hsome1; exact Bool.noConfusion hsome1
      | some l0 =>
        rw [hl0] at hlk
        exact ⟨l0 ++ [(d, 42 - (d.height - 1), d.height)], hlk, by simp⟩
    exact foldlM_step_inv (assignLeafStep (totalRacks devs))
      (fun o => occMem o num (d, 42 - (d.height - 1), d.height))
      (fun s a s' hs hp => assignLeafStep_occMem hs hp)
      l2 occ2 occ hocc3 hmem2
  · have hinv : leafInv occ := by
      refine foldlM_step_inv (assignLeafStep (totalRacks devs)) leafInv
        (fun s a s' hs hp => assignLeafStep_leafInv hs hp)
        (leafDevices devs) _ occ hocc ?_
      intro r l hl ent hent
      rw [occLookup_initOccupancy] at hl
      split at hl
      · injection hl with hl'
        subst hl'
        exact absurd hent (List.not_mem_nil ent)
      · exact Option.noConfusion hl
    intro r l hl ent hent
    have hbound : (occLookup occ r).isSome =
        (occLookup (initOccupancy (totalRacks devs)) r).isSome :=
      hpresFold (leafDevices devs) _ occ hocc (fun r => rfl) r
    rw [hl, occLookup_initOccupancy] at hbound
    obtain ⟨ha, hb, hc⟩ := hinv r l hl ent hent
    refine ⟨ha, hb, ?_⟩
    by_contra hcon
    rw [if_neg (fun hx => hcon ⟨hx.1, hx.2⟩)] at hbound
    exact Bool.noConfusion hbound

/-- C3 witness: two leaf devices; leaf 1 (1U) lands in rack 1 at U42. -/
theorem c3_witness :
    occMem [((1 : Int), [((⟨"dc-leaf-01", "leaf", 1⟩ : RDev), (42 : Int), (1 : Int))]),
        ((2 : Int), [((⟨"dc-leaf-02", "leaf", 2⟩ : RDev), (41 : Int), (2 : Int))])]
      1 (⟨"dc-leaf-01", "leaf", 1⟩, 42, 1) := by
  have h := (c3_leaf_rack_assignment
      [⟨"dc-leaf-01", "leaf", 1⟩, ⟨"dc-leaf-02", "leaf", 2⟩]
      [((1 : Int), [((⟨"dc-leaf-01", "leaf", 1⟩ : RDev), (42 : Int), (1 : Int))]),
        ((2 : Int), [((⟨"dc-leaf-02", "leaf", 2⟩ : RDev), (41 : Int), (2 : Int))])]
      (by decide)).2.1
      ⟨"dc-leaf-01", "leaf", 1⟩ 1 (by decide) (by decide) (by decide) (by decide)
  simpa using h

/-- C9: when `max(len(spines), len(border_leafs) + len(consoles) + len(oobs))`
is at most the number of leaf devices, every rack number in the middle-rack
block lies within `1..total_racks`, so the `rack_occupancy` lookups of the
middle-rack placement loops never hit a missing key (neither on the freshly
initialised dict nor after leaf placement). -/
theorem c9_middle_racks_in_bounds (devs : List RDev)
    (hmid : middleDeviceCount devs ≤ totalRacks devs) :
    ∀ r ∈ middleRacks devs, 1 ≤ r ∧ r ≤ (totalRacks devs : Int) ∧
      (occLookup (initOccupancy (totalRacks devs)) r).isSome = true ∧
      (∀ occ, assignLeafs devs = some occ → (occLookup occ r).isSome = true) := by
  intro r hr
  unfold middleRacks at hr
  rcases List.mem_map.mp hr with ⟨i, hi, rfl⟩
  rw [List.mem_range] at hi
  simp only [Int.ofNat_eq_natCast]
  have hrange : 1 ≤ middleStart devs + 1 + (i : Int) ∧
      middleStart devs + 1 + (i : Int) ≤ (totalRacks devs : Int) := by
    unfold middleStart
    have hcast : (middleDeviceCount devs : Int) ≤ (totalRacks devs : Int) := by
      exact_mod_cast hmid
    have hicast : (i : Int) < (middleDeviceCount devs : Int) := by
      exact_mod_cast hi
    omega
  have hinit : (occLookup (initOccupancy (totalRacks devs))
      (middleStart devs + 1 + (i : Int))).isSome = true := by
    rw [occLookup_initOccupancy, if_pos hrange]
    rfl
  refine ⟨hrange.1, hrange.2, hinit, ?_⟩
  intro occ hocc
  have hpres := foldlM_step_inv (assignLeafStep (totalRacks devs))
    (fun o => ∀ r : Int, (occLookup o r).isSome =
      (occLookup (initOccupancy (totalRacks devs)) r).isSome)
    (fun s a s' hs hp r => by rw [assignLeafStep_isSome hs r]; exact hp r)
    (leafDevices devs) _ occ hocc (fun r => rfl)
  rw [hpres (middleStart devs + 1 + (i : Int))]
  exact hinit

/-- C9 witness: four leafs, two spines, one console and one OOB switch:
the middle-rack block is racks 2 and 3, and the lookup at rack 2 succeeds. -/
theorem c9_witness :
    middleDeviceCount
        [⟨"dc-leaf-01", "leaf", 1⟩, ⟨"dc-leaf-02", "leaf", 1⟩,
         ⟨"dc-leaf-03", "leaf", 1⟩, ⟨"dc-leaf-04", "leaf", 1⟩,
         ⟨"dc-spine-01", "spine", 1⟩, ⟨"dc-spine-02", "spine", 1⟩,
         ⟨"dc-console-01", "console", 1⟩, ⟨"dc-oob-01", "oob", 1⟩] ≤
      totalRacks
        [⟨"dc-leaf-01", "leaf", 1⟩, ⟨"dc-leaf-02", "leaf", 1⟩,
         ⟨"dc-leaf-03", "leaf", 1⟩, ⟨"dc-leaf-04", "leaf", 1⟩,
         ⟨"dc-spine-01", "spine", 1⟩, ⟨"dc-spine-02", "spine", 1⟩,
         ⟨"dc-console-01", "console", 1⟩, ⟨"dc-oob-01", "oob", 1⟩] ∧
    (2 : Int) ∈ middleRacks
        [⟨"dc-leaf-01", "leaf", 1⟩, ⟨"dc-leaf-02", "leaf", 1⟩,
         ⟨"dc-leaf-03", "leaf", 1⟩, ⟨"dc-leaf-04", "leaf", 1⟩,
         ⟨"dc-spine-01", "spine", 1⟩, ⟨"dc-spine-02", "spine", 1⟩,
         ⟨"dc-console-01", "console", 1⟩, ⟨"dc-oob-01", "oob", 1⟩] ∧
    (occLookup (initOccupancy (totalRacks
        [⟨"dc-leaf-01", "leaf", 1⟩, ⟨"dc-leaf-02", "leaf", 1⟩,
         ⟨"dc-leaf-03", "leaf", 1⟩, ⟨"dc-leaf-04", "leaf", 1⟩,
         ⟨"dc-spine-01", "spine", 1⟩, ⟨"dc-spine-02", "spine", 1⟩,
         ⟨"dc-console-01", "console", 1⟩, ⟨"dc-oob-01", "oob", 1⟩])) 2).isSome = true := by
  refine ⟨by decide, by decide, ?_⟩
  obtain ⟨-, -, h3, -⟩ := c9_middle_racks_in_bounds
    [⟨"dc-leaf-01", "leaf", 1⟩, ⟨"dc-leaf-02", "leaf", 1⟩,
     ⟨"dc-leaf-03", "leaf", 1⟩, ⟨"dc-leaf-04", "leaf", 1⟩,
     ⟨"dc-spine-01", "spine", 1⟩, ⟨"dc-spine-02", "spine", 1⟩,
     ⟨"dc-console-01", "console", 1⟩, ⟨"dc-oob-01", "oob", 1⟩]
    (by decide) 2 (by decide)
  exact h3

/-- C8: a dict entry whose value is a dict with a falsy `"value"` and no
truthy `"node"` or `"edges"` key is mapped by `clean_data` to `None`, not
to the stored falsy value. -/
theorem c8_falsy_value_becomes_none (k : String) (d rest : List (String × PyVal))
    (hv : truthy (dictGet d "value") = false)
    (hn : truthy (dictGet d "node") = false)
    (he : truthy (dictGet d "edges") = false) :
    cleanFields ((k, .dict d) :: rest) = (k, PyVal.none) :: cleanFields rest := by
  rw [cleanFields]
  simp [hv, hn, he]

/-- C8 witness: the attribute value `0` is falsy, and the entry is cleaned
to `None`. -/
theorem c8_witness :
    truthy (dictGet [("value", PyVal.int 0)] "value") = false ∧
    cleanFields [("a", PyVal.dict [("value", PyVal.int 0)])] = [("a", PyVal.none)] := by
  refine ⟨by simp [dictGet, truthy], ?_⟩
  rw [c8_falsy_value_becomes_none "a" [("value", PyVal.int 0)] []
    (by simp [dictGet, truthy]) (by simp [dictGet, truthy])
    (by simp [dictGet, truthy])]
  simp [cleanFields]

end InfrahubDC
